import Mathlib

/-!
# Verification of `launch_vms.py` (vm_launch_utils)

Shallow embedding of the VM provisioning orchestration engine:
the disk-image staging protocol (`ensure_file_image`), the per-VM
command construction and launch (`launch_single_vm`), the per-host
orchestration (`run_vms_on_single_host`) and the CLI entry (`main`).

Remote effects (existence/in-use probes, process kill, interface
creation, bulk transfer, hypervisor launch) are recorded as an event
trace.  The remote world is an oracle state `FS` giving the outcome of
each probe.  `sys.exit(1)` sites are modelled as `Except.error` values
that abort the remaining computation, mirroring how `SystemExit`
propagates through `asyncio.gather` and terminates the process.
-/

namespace VmLaunch

/-- Oracle for the file systems involved: remote existence, remote
in-use-by-qemu status, local existence, and the orchestrator's working
directory (for the `\x7bpwd\x7d` placeholder). -/
structure FS where
  remoteExists : String → Bool
  remoteInUse : String → Bool
  localExists : String → Bool
  cwd : String

/-- Killing the qemu process that holds `p` open clears the in-use
status of `p` and changes nothing else. -/
def FS.killAt (fs : FS) (p : String) : FS :=
  { fs with remoteInUse := fun q => if q = p then false else fs.remoteInUse q }

/-- The two remote-execution disciplines used for the hypervisor launch
(spec §4.5): detached/non-blocking/no-output, or blocking with an
interactive pty. -/
inductive Discipline
  | detachedNoOutput
  | blockingPty
deriving DecidableEq

/-- Observable remote actions, in the order they are performed. -/
inductive Event
  | openSession
  | vmTask (kill : Bool)
  | probeExists (path : String) (result : Bool)
  | probeInUse (path : String)
  | killQemu (path : String)
  | createIface (itype : String)
  | userNic
  | attachNic (itype : String) (slot : Nat)
  | createHostIface (htype : String)
  | transfer (localPath remotePath : String)
  | launch (args : List String) (d : Discipline)
deriving DecidableEq

/-- The `sys.exit(1)` sites of the program, as distinguishable errors. -/
inductive Err
  | emptyRemotePath
  | inUseConflict (path : String)
  | missingLocal (path : String)
  | unknownInterfaceType (t : String)
  | unknownDisplayMode (v : String)
  | keyError (k : String)
  | unknownHostNetType (t : String)
deriving DecidableEq

/-- Decimal rendering of a natural number (Python's `str` on the JSON
integers fed to `-m`, `-smp` and `index=`); fuel-structural so it
evaluates by `decide`. -/
def natCharsAux : Nat → Nat → List Char
  | 0, _ => []
  | fuel + 1, n =>
    if n < 10 then [Nat.digitChar n]
    else natCharsAux fuel (n / 10) ++ [Nat.digitChar (n % 10)]

/-- Decimal string of a natural number. -/
def natToString (n : Nat) : String :=
  ⟨natCharsAux (n + 1) n⟩

/-- An interface specification: the `type` tag plus its type-specific
fields (parent device, MAC, ...), collapsed into one opaque payload. -/
structure Iface where
  itype : String
  payload : String
deriving DecidableEq

/-- One entry of `additional_disk_images`; a missing key is the empty
string (the source reads both with `.get(key, "")`). -/
structure DiskSpec where
  local_disk_image_path : String
  remote_disk_image_path : String
deriving DecidableEq

/-- A host-network specification (`host_network` list entry). -/
structure HostIface where
  htype : String
  payload : String
deriving DecidableEq

/-- One key/value pair of a `VmConfiguration` JSON object, in document
order.  Unrecognized keys are kept (as `other`) because the source
iterates `vm_configuration.items()` and ignores them. -/
inductive Entry
  | memory (v : Nat)
  | cpu_count (v : Nat)
  | virtfs_path (v : String)
  | interfaces (l : List Iface)
  | display_mode (v : String)
  | remote_disk_image_path (v : String)
  | local_disk_image_path (v : String)
  | additional_disk_images (l : List DiskSpec)
  | other (k : String)
deriving DecidableEq

/-- A `VmConfiguration`: its entries in document order. -/
abbrev VmConfig := List Entry

/-- `vm_configuration["remote_disk_image_path"]`: the value when the
key is present (JSON object keys are unique), `none` when absent. -/
def getRemotePath? (vm : VmConfig) : Option String :=
  vm.findSome? fun e =>
    match e with
    | .remote_disk_image_path v => some v
    | _ => none

/-- `vm_configuration.get("remote_disk_image_path", "")`. -/
def getRemotePathD (vm : VmConfig) : String :=
  (getRemotePath? vm).getD ""

/-- `vm_configuration.get("local_disk_image_path", "")`. -/
def getLocalPathD (vm : VmConfig) : String :=
  (vm.findSome? fun e =>
    match e with
    | .local_disk_image_path v => some v
    | _ => none).getD ""

/-- `vm_configuration.get("additional_disk_images", [])`. -/
def getAdditional (vm : VmConfig) : List DiskSpec :=
  (vm.findSome? fun e =>
    match e with
    | .additional_disk_images l => some l
    | _ => none).getD []

/-- Modelled from the spec: `check_file_exists` (in
`async_process_utils`, not under `src/`) probes whether the remote path
exists, over the session. -/
def check_file_exists (fs : FS) (path : String) : List Event × Bool :=
  ([.probeExists path (fs.remoteExists path)], fs.remoteExists path)

/-- Modelled from the spec: `validate_image_use` (in
`async_process_utils`, not under `src/`) probes whether a hypervisor
process holds the image open; it returns `false` on an in-use conflict,
and with `kill_running_vms` it terminates the owning process, after
which the use is considered cleared and it returns `true`. -/
def validate_image_use (fs : FS) (path : String) (kill_running_vms : Bool) :
    FS × List Event × Bool :=
  if fs.remoteInUse path then
    if kill_running_vms then
      (fs.killAt path, [.probeInUse path, .killQemu path], true)
    else
      (fs, [.probeInUse path], false)
  else
    (fs, [.probeInUse path], true)

/-- Modelled from the spec: `copy_to_remote` (in `async_fs_utils`, not
under `src/`) is the bulk transfer staging the local image into place. -/
def copy_to_remote (local_path remote_path : String) : List Event :=
  [.transfer local_path remote_path]

/-- `ensure_file_image` (src/launch_vms.py:17-38): reject an empty
remote path; probe existence; on an existing image probe use (no kill
option is passed here) and abort on conflict; stage from the local
source when `overwrite_image` is set or the remote file is absent,
aborting when the local source is missing. -/
def ensure_file_image (fs : FS) (local_path remote_path : String)
    (overwrite_image : Bool) : List Event × Except Err Unit :=
  if remote_path = "" then
    ([], .error .emptyRemotePath)
  else
    let e1 := (check_file_exists fs remote_path).1
    let file_exists := (check_file_exists fs remote_path).2
    if file_exists && fs.remoteInUse remote_path then
      (e1 ++ [.probeInUse remote_path], .error (.inUseConflict remote_path))
    else
      let e2 := e1 ++ (if file_exists then [Event.probeInUse remote_path] else [])
      if overwrite_image || !file_exists then
        if fs.localExists local_path then
          (e2 ++ copy_to_remote local_path remote_path, .ok ())
        else
          (e2, .error (.missingLocal local_path))
      else
        (e2, .ok ())

/-- Modelled from the spec: `MacVtap(...).get_args(i)` returns the NIC
descriptor binding the macvtap device at slot `i`. -/
def macvtap_get_args (f : Iface) (slot : Nat) : List String :=
  ["-netdev", "macvtap,ifname=" ++ f.payload,
   "-device", "virtio-net-pci,addr=" ++ natToString slot]

/-- Modelled from the spec: `Tap(...).get_args(i)` returns the NIC
descriptor binding the tap device at slot `i`. -/
def tap_get_args (f : Iface) (slot : Nat) : List String :=
  ["-netdev", "tap,ifname=" ++ f.payload,
   "-device", "virtio-net-pci,addr=" ++ natToString slot]

/-- Modelled from the spec: `User(...).get_args()` returns a user-mode
networking descriptor with no slot dependency. -/
def user_get_args (f : Iface) : List String :=
  ["-netdev", "user,id=" ++ f.payload]

/-- The `interfaces` loop (src/launch_vms.py:80-107): slot counter `i`
starts at 4; macvtap/tap create their device remotely, contribute their
fragment at slot `i` and increment `i`; user contributes a fragment and
no slot; any other type aborts. -/
def ifaceLoop (args : List String) (i : Nat) :
    List Iface → List String × Nat × List Event × Except Err Unit
  | [] => (args, i, [], .ok ())
  | f :: rest =>
    if f.itype = "macvtap" then
      let r := ifaceLoop (args ++ macvtap_get_args f i) (i + 1) rest
      (r.1, r.2.1, [.createIface "macvtap", .attachNic "macvtap" i] ++ r.2.2.1, r.2.2.2)
    else if f.itype = "tap" then
      let r := ifaceLoop (args ++ tap_get_args f i) (i + 1) rest
      (r.1, r.2.1, [.createIface "tap", .attachNic "tap" i] ++ r.2.2.1, r.2.2.2)
    else if f.itype = "user" then
      let r := ifaceLoop (args ++ user_get_args f) i rest
      (r.1, r.2.1, [.userNic] ++ r.2.2.1, r.2.2.2)
    else
      (args, i, [], .error (.unknownInterfaceType f.itype))

/-- The key loop (src/launch_vms.py:62-120): iterate the configuration
entries in document order, translating the recognized keys; the
`display_mode` variable starts `""` and is set only by the `background`
and `graphic` branches; keys with no branch are ignored.  The loop
touches the ambient state only through `os.getcwd()`, passed as `cwd`. -/
def keyLoop (cwd : String) (args : List String) (dm : String) :
    List Entry → List String × String × List Event × Except Err Unit
  | [] => (args, dm, [], .ok ())
  | .memory v :: rest => keyLoop cwd (args ++ ["-m", natToString v]) dm rest
  | .cpu_count v :: rest => keyLoop cwd (args ++ ["-smp", natToString v]) dm rest
  | .virtfs_path v :: rest =>
    let path := if v = "{pwd}" then cwd else v
    keyLoop cwd (args ++ ["-virtfs",
      "local,path=" ++ path ++ ",security_model=mapped-xattr,mount_tag=share,id=share"]) dm rest
  | .interfaces l :: rest =>
    let r := ifaceLoop args 4 l
    match r.2.2.2 with
    | .error err => (r.1, dm, r.2.2.1, .error err)
    | .ok () =>
      let k := keyLoop cwd r.1 dm rest
      (k.1, k.2.1, r.2.2.1 ++ k.2.2.1, k.2.2.2)
  | .display_mode v :: rest =>
    if v = "background" then
      keyLoop cwd (args ++ ["-vga", "none", "-serial", "none", "-nographic"]) "background" rest
    else if v = "terminal" then
      keyLoop cwd (args ++ ["-vga", "none", "-nographic"]) dm rest
    else if v = "graphic" then
      keyLoop cwd (args ++ ["-vga", "virtio"]) "graphic" rest
    else
      (args, dm, [], .error (.unknownDisplayMode v))
  | .remote_disk_image_path _ :: rest => keyLoop cwd args dm rest
  | .local_disk_image_path _ :: rest => keyLoop cwd args dm rest
  | .additional_disk_images _ :: rest => keyLoop cwd args dm rest
  | .other _ :: rest => keyLoop cwd args dm rest

/-- One `-drive` fragment (src/launch_vms.py:128-129,136-137). -/
def driveFrag (path : String) (idx : Nat) : List String :=
  ["-drive",
   "file=" ++ path ++ ",format=qcow2,if=virtio,index=" ++ natToString idx ++ ",media=disk"]

/-- All `-drive` fragments for the given remote paths, with sequential
indices from `n`. -/
def driveFrags : List String → Nat → List String
  | [], _ => []
  | p :: ps, n => driveFrag p n ++ driveFrags ps (n + 1)

/-- The `additional_disk_images` loop (src/launch_vms.py:132-138):
ensure each extra disk, then append its `-drive` fragment at the next
`drive_number`. -/
def addDisksLoop (fs : FS) (ow : Bool) (args : List String) (n : Nat) :
    List DiskSpec → List String × List Event × Except Err Unit
  | [] => (args, [], .ok ())
  | d :: ds =>
    let er := ensure_file_image fs d.local_disk_image_path d.remote_disk_image_path ow
    match er.2 with
    | .error err => (args, er.1, .error err)
    | .ok () =>
      let rec' := addDisksLoop fs ow (args ++ driveFrag d.remote_disk_image_path n) (n + 1) ds
      (rec'.1, er.1 ++ rec'.2.1, rec'.2.2)

/-- The fixed acceleration/CPU flags prepended to every invocation
(src/launch_vms.py:49). -/
def baseArgs : List String := ["-accel", "kvm", "-cpu", "max"]

/-- The drives phase of `launch_single_vm`
(src/launch_vms.py:122-138): reject an empty primary remote path (only
now), ensure the primary disk and append its `-drive` fragment at index
0, then ensure each additional disk at the next index.  On success it
yields the final argument vector together with the discipline selected
by the `display_mode` variable `dm`. -/
def drivesPhase (fs1 : FS) (vm : VmConfig) (ow : Bool) (args : List String) (dm : String) :
    List Event × Except Err (List String × Discipline) :=
  if getRemotePathD vm = "" then
    ([], .error .emptyRemotePath)
  else
    let er := ensure_file_image fs1 (getLocalPathD vm) (getRemotePathD vm) ow
    match er.2 with
    | .error err => (er.1, .error err)
    | .ok () =>
      let a := addDisksLoop fs1 ow (args ++ driveFrag (getRemotePathD vm) 0) 1 (getAdditional vm)
      match a.2.2 with
      | .error err => (er.1 ++ a.2.1, .error err)
      | .ok () =>
        (er.1 ++ a.2.1,
         .ok (a.1,
           if dm == "background" || dm == "graphic" then Discipline.detachedNoOutput
           else Discipline.blockingPty))

/-- The build-and-launch phase of `launch_single_vm`
(src/launch_vms.py:62-145): run the key loop over the configuration
entries, run the drives phase, then submit the hypervisor command with
the selected discipline (src/launch_vms.py:141-145). -/
def buildAndLaunch (fs1 : FS) (cwd : String) (vm : VmConfig) (ow : Bool) :
    List Event × Except Err Unit :=
  let k := keyLoop cwd baseArgs "" vm
  match k.2.2.2 with
  | .error err => (k.2.2.1, .error err)
  | .ok () =>
    let dp := drivesPhase fs1 vm ow k.1 k.2.1
    match dp.2 with
    | .error err => (k.2.2.1 ++ dp.1, .error err)
    | .ok ad => (k.2.2.1 ++ dp.1 ++ [.launch ad.1 ad.2], .ok ())

/-- `launch_single_vm` (src/launch_vms.py:42-145): probe the primary
image and validate its use (with the kill option, src/launch_vms.py:53-60),
then build the argument vector, ensure the disks and launch.  A missing
`remote_disk_image_path` key is a `KeyError` at the very first access
(src/launch_vms.py:54). -/
def launch_single_vm (fs : FS) (vm : VmConfig) (overwrite_image kill_running_vms : Bool) :
    FS × List Event × Except Err Unit :=
  match getRemotePath? vm with
  | none => (fs, [], .error (.keyError "remote_disk_image_path"))
  | some rp0 =>
    let ev0 := (check_file_exists fs rp0).1
    let file_exists := (check_file_exists fs rp0).2
    let v :=
      if file_exists then validate_image_use fs rp0 kill_running_vms
      else (fs, [], true)
    if v.2.2 = false then
      (v.1, ev0 ++ v.2.1, .error (.inUseConflict rp0))
    else
      let bl := buildAndLaunch v.1 fs.cwd vm overwrite_image
      (v.1, ev0 ++ v.2.1 ++ bl.1, bl.2)

/-- `setup_host_network` (src/launch_vms.py:148-160). -/
def setup_host_network : List HostIface → List Event × Except Err Unit
  | [] => ([], .ok ())
  | f :: rest =>
    if f.htype = "bridge" then
      let r := setup_host_network rest
      ([.createHostIface "bridge"] ++ r.1, r.2)
    else if f.htype = "macvlan" then
      let r := setup_host_network rest
      ([.createHostIface "macvlan"] ++ r.1, r.2)
    else
      ([], .error (.unknownHostNetType f.htype))

/-- The per-VM loop of `run_vms_on_single_host`
(src/launch_vms.py:176-183): open a fresh session per VM and launch.
A `sys.exit(1)` in any launch raises `SystemExit`, which propagates
through `asyncio.gather` and terminates the process, so the first fatal
error aborts the remaining work. -/
def vmsLoop (fs : FS) (ow kill : Bool) :
    List VmConfig → FS × List Event × Except Err Unit
  | [] => (fs, [], .ok ())
  | vm :: rest =>
    let r := launch_single_vm fs vm ow kill
    match r.2.2 with
    | .error err => (r.1, [.openSession, .vmTask kill] ++ r.2.1, .error err)
    | .ok () =>
      let k := vmsLoop r.1 ow kill rest
      (k.1, [.openSession, .vmTask kill] ++ r.2.1 ++ k.2.1, k.2.2)

/-- `run_vms_on_single_host` (src/launch_vms.py:163-185): optionally
set up the host network first (over its own session), then launch every
VM of the host. -/
def run_vms_on_single_host (fs : FS) (vms : List VmConfig)
    (host_network : Option (List HostIface)) (ow kill : Bool) :
    FS × List Event × Except Err Unit :=
  match host_network with
  | some hn =>
    let s := setup_host_network hn
    match s.2 with
    | .error err => (fs, [.openSession] ++ s.1, .error err)
    | .ok () =>
      let k := vmsLoop fs ow kill vms
      (k.1, [.openSession] ++ s.1 ++ k.2.1, k.2.2)
  | none => vmsLoop fs ow kill vms

/-- One host-object of the configuration document. -/
structure HostConfig where
  host : Option String
  host_network : Option (List HostIface)
  vms : List VmConfig

/-- The CLI surface (src/launch_vms.py:193-201): one positional path
and the single `--overwrite-image` flag; nothing else. -/
structure CliArgs where
  json_path : String
  overwrite_image : Bool

/-- The per-host loop of `main` (src/launch_vms.py:212-221):
`run_vms_on_single_host` is invoked with `kill_running_vms = True`
(the literal `True` at src/launch_vms.py:219). -/
def hostsLoop (fs : FS) (ow : Bool) :
    List HostConfig → FS × List Event × Except Err Unit
  | [] => (fs, [], .ok ())
  | h :: rest =>
    let r := run_vms_on_single_host fs h.vms h.host_network ow true
    match r.2.2 with
    | .error err => (r.1, r.2.1, .error err)
    | .ok () =>
      let k := hostsLoop r.1 ow rest
      (k.1, r.2.1 ++ k.2.1, k.2.2)

/-- `main` (src/launch_vms.py:188-222): run every host with the parsed
CLI overwrite flag and the hard-coded kill flag. -/
def main (fs : FS) (cli : CliArgs) (config : List HostConfig) :
    FS × List Event × Except Err Unit :=
  hostsLoop fs cli.overwrite_image config

/-! ## Trace observations -/

/-- The transfers recorded in a trace. -/
def transfersOf (l : List Event) : List (String × String) :=
  l.filterMap fun e =>
    match e with
    | .transfer a b => some (a, b)
    | _ => none

/-- The NIC attachments (type, slot) recorded in a trace, in order. -/
def nicSlotsOf (l : List Event) : List (String × Nat) :=
  l.filterMap fun e =>
    match e with
    | .attachNic t s => some (t, s)
    | _ => none

/-- The hypervisor launches recorded in a trace. -/
def launchesOf (l : List Event) : List (List String × Discipline) :=
  l.filterMap fun e =>
    match e with
    | .launch a d => some (a, d)
    | _ => none

/-- The `interfaces` entries of a configuration, in order. -/
def ifaceEntries (vm : VmConfig) : List (List Iface) :=
  vm.filterMap fun e =>
    match e with
    | .interfaces l => some l
    | _ => none

/-- The `display_mode` entries of a configuration, in order. -/
def dmEntries (vm : VmConfig) : List String :=
  vm.filterMap fun e =>
    match e with
    | .display_mode v => some v
    | _ => none

/-- The types of the VM-attached (slot-consuming) interfaces of a list,
in document order. -/
def attachedTypes (l : List Iface) : List String :=
  (l.filter fun f => f.itype == "macvtap" || f.itype == "tap").map Iface.itype

/-- Events produced by the disk-image protocol (probes, kill, transfer). -/
def diskEv : Event → Bool
  | .probeExists _ _ => true
  | .probeInUse _ => true
  | .killQemu _ => true
  | .transfer _ _ => true
  | _ => false

/-- Events produced by the per-VM interface loop. -/
def ifaceEv : Event → Bool
  | .createIface _ => true
  | .attachNic _ _ => true
  | .userNic => true
  | _ => false

/-- The possible shapes of a token contributed by a NIC fragment. -/
def nicTokP (s : String) : Prop :=
  s = "-netdev" ∨ s = "-device" ∨
  (∃ p, s = "macvtap,ifname=" ++ p) ∨ (∃ p, s = "tap,ifname=" ++ p) ∨
  (∃ p, s = "user,id=" ++ p) ∨ (∃ p, s = "virtio-net-pci,addr=" ++ p)

/-- The possible shapes of a token contributed by one configuration
entry in the key loop. -/
def entryTokP (cwd : String) : Entry → String → Prop
  | .memory v, s => s = "-m" ∨ s = natToString v
  | .cpu_count v, s => s = "-smp" ∨ s = natToString v
  | .virtfs_path v, s => s = "-virtfs" ∨
      s = "local,path=" ++ ((if v = "{pwd}" then cwd else v) ++
        ",security_model=mapped-xattr,mount_tag=share,id=share")
  | .interfaces _, s => nicTokP s
  | .display_mode _, s => s = "-vga" ∨ s = "none" ∨ s = "-serial" ∨ s = "-nographic" ∨ s = "virtio"
  | _, _ => False

/-- The final value of the `display_mode` variable after folding the
`display_mode` entries (only `background`/`graphic` set it). -/
def dmFold (d : String) : List String → String
  | [] => d
  | v :: vs =>
    dmFold (if v = "background" then "background" else if v = "graphic" then "graphic" else d) vs

/-! ## Concrete fixtures (used by counterexamples and witnesses) -/

/-- A world where no remote file exists, nothing is in use, and every
local file exists. -/
def fs0 : FS :=
  { remoteExists := fun _ => false
    remoteInUse := fun _ => false
    localExists := fun _ => true
    cwd := "/w" }

/-- A world where exactly `img` exists remotely and is held open by a
qemu process. -/
def fsU : FS :=
  { remoteExists := fun p => p == "img"
    remoteInUse := fun p => p == "img"
    localExists := fun _ => true
    cwd := "/w" }

/-- A world where exactly `idle` exists remotely and nothing is in use. -/
def fsI : FS :=
  { remoteExists := fun p => p == "idle"
    remoteInUse := fun _ => false
    localExists := fun _ => true
    cwd := "/w" }

/-- A CLI invocation without `--overwrite-image`. -/
def cli0 : CliArgs := { json_path := "conf.json", overwrite_image := false }

/-- A configuration whose `remote_disk_image_path` is the empty string,
with one macvtap interface. -/
def vmEmptyPath : VmConfig :=
  [.remote_disk_image_path "", .interfaces [⟨"macvtap", "m0"⟩]]

/-- A configuration with an unsupported interface type `wifi`. -/
def vmWifi : VmConfig :=
  [.remote_disk_image_path "img", .interfaces [⟨"wifi", "w0"⟩]]

/-- A configuration with an unknown display mode. -/
def vmBadDm : VmConfig :=
  [.remote_disk_image_path "img", .display_mode "wayland"]

/-- A well-formed sibling configuration. -/
def vmGood : VmConfig :=
  [.remote_disk_image_path "img2"]

/-- A well-formed configuration with no `display_mode` key. -/
def vmNoDm : VmConfig :=
  [.memory 4, .remote_disk_image_path "a"]

/-- `vmNoDm` with an explicit `display_mode = "terminal"`. -/
def vmTermDm : VmConfig :=
  vmNoDm ++ [.display_mode "terminal"]

/-- A configuration exercising interfaces, display mode and an
additional disk. -/
def vmFull : VmConfig :=
  [.memory 2048,
   .interfaces [⟨"macvtap", "m0"⟩, ⟨"user", "u0"⟩, ⟨"tap", "t0"⟩],
   .display_mode "background",
   .remote_disk_image_path "a",
   .additional_disk_images [⟨"l2", "b"⟩]]

end VmLaunch

deriving instance DecidableEq for Except

namespace VmLaunch

/-! ## Helper lemmas -/

theorem natCharsAux_head (fuel n : Nat) (h : n < fuel) :
    ∃ c, (natCharsAux fuel n).head? = some c ∧ c.isDigit = true := by
  induction fuel generalizing n with
  | zero => omega
  | succ f ih =>
    rw [natCharsAux]
    by_cases h10 : n < 10
    · refine ⟨Nat.digitChar n, ?_, ?_⟩
      · simp [h10]
      · interval_cases n <;> decide
    · have hd : n / 10 < f := by
        have : n / 10 < n := Nat.div_lt_self (by omega) (by omega)
        omega
      obtain ⟨c, hc, hcd⟩ := ih (n / 10) hd
      refine ⟨c, ?_, hcd⟩
      simp only [if_neg h10]
      rcases hl : natCharsAux f (n / 10) with _ | ⟨a, as⟩
      · rw [hl] at hc; simp at hc
      · rw [hl] at hc
        simp at hc
        simp [hc]

theorem natToString_head (n : Nat) :
    ∃ c, (natToString n).data.head? = some c ∧ c.isDigit = true :=
  natCharsAux_head (n + 1) n (by omega)

/-- A decimal numeral differs from any string that does not start with
a digit. -/
theorem natToString_ne (n : Nat) (t : String)
    (h : ∀ c, t.data.head? = some c → c.isDigit = false) :
    natToString n ≠ t := by
  intro he
  obtain ⟨c, hc, hcd⟩ := natToString_head n
  rw [he] at hc
  have hf := h c hc
  rw [hf] at hcd
  exact Bool.false_ne_true hcd

/-- Two strings whose first characters differ are different, even after
appending to the first. -/
theorem append_ne_of_head (a b t : String) (c c' : Char)
    (ha : a.data.head? = some c) (ht : t.data.head? = some c') (hne : c ≠ c') :
    a ++ b ≠ t := by
  intro he
  have hd : (a ++ b).data = t.data := congrArg String.data he
  rw [String.data_append] at hd
  rcases hl : a.data with _ | ⟨x, xs⟩
  · rw [hl] at ha; simp at ha
  · rw [hl] at ha
    simp at ha
    rw [hl] at hd
    have hx : t.data.head? = some x := by rw [← hd]; simp
    rw [ht] at hx
    simp at hx
    exact hne (ha ▸ hx ▸ rfl)

/-! ## C1, C2: the disk-image staging protocol -/

/-- **C1**: a call to `ensure_file_image` with a non-empty remote path,
no in-use conflict, and a local source present whenever staging is
required, succeeds exactly when the local source exists if needed, and
performs the bulk transfer if and only if `overwrite` is set or the
remote file is absent (one transfer then, zero otherwise). -/
theorem C1_ensure_transfer_iff (fs : FS) (lp rp : String) (ow : Bool)
    (hrp : rp ≠ "")
    (hfree : fs.remoteExists rp = true → fs.remoteInUse rp = false) :
    ((ensure_file_image fs lp rp ow).2 = .ok () ↔
      ((ow || !fs.remoteExists rp) = true → fs.localExists lp = true)) ∧
    transfersOf (ensure_file_image fs lp rp ow).1 =
      (if ((ow || !fs.remoteExists rp) && fs.localExists lp) = true
       then [(lp, rp)] else []) := by
  unfold ensure_file_image check_file_exists copy_to_remote
  cases hfe : fs.remoteExists rp with
  | false =>
    cases hl : fs.localExists lp <;> cases ow <;>
      simp [hrp, hfe, hl, transfersOf]
  | true =>
    have hiu := hfree hfe
    cases hl : fs.localExists lp <;> cases ow <;>
      simp [hrp, hfe, hiu, hl, transfersOf]

/-- **C1** witness: an absent remote path with an existing local source
gives a success with exactly one transfer. -/
theorem C1_witness :
    (ensure_file_image fs0 "loc" "rem" false).2 = .ok () ∧
    transfersOf (ensure_file_image fs0 "loc" "rem" false).1 = [("loc", "rem")] := by
  have h := C1_ensure_transfer_iff fs0 "loc" "rem" false (by decide) (by decide)
  exact ⟨h.1.mpr (by decide), h.2.trans (by decide)⟩

/-- **C2**: a call to `ensure_file_image` on a remote path that exists
and is held open by another qemu process fails as an in-use conflict,
performs no transfer and kills nothing (the remote state is unchanged —
`ensure_file_image` passes no kill option to the use probe). -/
theorem C2_ensure_inuse_conflict (fs : FS) (lp rp : String) (ow : Bool)
    (hrp : rp ≠ "") (he : fs.remoteExists rp = true) (hu : fs.remoteInUse rp = true) :
    (ensure_file_image fs lp rp ow).2 = .error (.inUseConflict rp) ∧
    transfersOf (ensure_file_image fs lp rp ow).1 = [] ∧
    ∀ p, Event.killQemu p ∉ (ensure_file_image fs lp rp ow).1 := by
  unfold ensure_file_image check_file_exists
  simp [hrp, he, hu, transfersOf]

/-- **C2** witness: the image `img` of `fsU` is present and in use. -/
theorem C2_witness :
    (ensure_file_image fsU "loc" "img" false).2 = .error (.inUseConflict "img") ∧
    transfersOf (ensure_file_image fsU "loc" "img" false).1 = [] :=
  ⟨(C2_ensure_inuse_conflict fsU "loc" "img" false (by decide) (by decide) (by decide)).1,
   (C2_ensure_inuse_conflict fsU "loc" "img" false (by decide) (by decide) (by decide)).2.1⟩

/-! ## Event classification of the traces -/

theorem mem_validate_evs {fs : FS} {p : String} {k : Bool} {e : Event}
    (h : e ∈ (validate_image_use fs p k).2.1) : diskEv e = true := by
  unfold validate_image_use at h
  cases h1 : fs.remoteInUse p <;> rw [h1] at h
  · simp at h
    subst h
    rfl
  · cases k <;> simp at h
    · subst h
      rfl
    · rcases h with rfl | rfl <;> rfl

theorem mem_ensure_evs {fs : FS} {lp rp : String} {ow : Bool} {e : Event}
    (h : e ∈ (ensure_file_image fs lp rp ow).1) : diskEv e = true := by
  unfold ensure_file_image check_file_exists copy_to_remote at h
  by_cases hrp : rp = ""
  · simp [hrp] at h
  · cases hfe : fs.remoteExists rp <;> cases hiu : fs.remoteInUse rp <;>
      cases ow <;> cases hl : fs.localExists lp <;>
      simp [hrp, hfe, hiu, hl] at h <;>
      (rcases h with rfl | rfl | rfl <;> rfl)

theorem mem_ifaceLoop_evs {l : List Iface} {args : List String} {i : Nat} {e : Event}
    (h : e ∈ (ifaceLoop args i l).2.2.1) : ifaceEv e = true := by
  induction l generalizing args i with
  | nil => simp [ifaceLoop] at h
  | cons f rest ih =>
    rw [ifaceLoop] at h
    by_cases h1 : f.itype = "macvtap"
    · simp only [if_pos h1] at h
      simp at h
      rcases h with rfl | rfl | hm
      · rfl
      · rfl
      · exact ih hm
    · by_cases h2 : f.itype = "tap"
      · simp only [if_neg h1, if_pos h2] at h
        simp at h
        rcases h with rfl | rfl | hm
        · rfl
        · rfl
        · exact ih hm
      · by_cases h3 : f.itype = "user"
        · simp only [if_neg h1, if_neg h2, if_pos h3] at h
          simp at h
          rcases h with rfl | hm
          · rfl
          · exact ih hm
        · simp [if_neg h1, if_neg h2, if_neg h3] at h

theorem mem_keyLoop_evs {cwd : String} {l : List Entry} {args : List String} {dm : String}
    {e : Event} (h : e ∈ (keyLoop cwd args dm l).2.2.1) : ifaceEv e = true := by
  induction l generalizing args dm with
  | nil => simp [keyLoop] at h
  | cons en rest ih =>
    cases en with
    | memory v => rw [keyLoop] at h; exact ih h
    | cpu_count v => rw [keyLoop] at h; exact ih h
    | virtfs_path v => rw [keyLoop] at h; exact ih h
    | interfaces il =>
      rw [keyLoop] at h
      simp only at h
      split at h
      · exact mem_ifaceLoop_evs h
      · simp at h
        rcases h with hm | hm
        · exact mem_ifaceLoop_evs hm
        · exact ih hm
    | display_mode v =>
      rw [keyLoop] at h
      by_cases h1 : v = "background"
      · rw [if_pos h1] at h; exact ih h
      · by_cases h2 : v = "terminal"
        · rw [if_neg h1, if_pos h2] at h; exact ih h
        · by_cases h3 : v = "graphic"
          · rw [if_neg h1, if_neg h2, if_pos h3] at h; exact ih h
          · rw [if_neg h1, if_neg h2, if_neg h3] at h; simp at h
    | remote_disk_image_path v => rw [keyLoop] at h; exact ih h
    | local_disk_image_path v => rw [keyLoop] at h; exact ih h
    | additional_disk_images l2 => rw [keyLoop] at h; exact ih h
    | other k => rw [keyLoop] at h; exact ih h

theorem mem_addDisks_evs {fs : FS} {ow : Bool} {args : List String} {n : Nat}
    {ds : List DiskSpec} {e : Event} (h : e ∈ (addDisksLoop fs ow args n ds).2.1) :
    diskEv e = true := by
  induction ds generalizing args n with
  | nil => simp [addDisksLoop] at h
  | cons d rest ih =>
    rw [addDisksLoop] at h
    simp only at h
    split at h
    · exact mem_ensure_evs h
    · simp at h
      rcases h with hm | hm
      · exact mem_ensure_evs hm
      · exact ih hm

theorem mem_drivesPhase_evs {fs1 : FS} {vm : VmConfig} {ow : Bool} {args : List String}
    {dm : String} {e : Event} (h : e ∈ (drivesPhase fs1 vm ow args dm).1) :
    diskEv e = true := by
  unfold drivesPhase at h
  split at h
  · simp at h
  · simp only at h
    split at h
    · exact mem_ensure_evs h
    · split at h
      · simp at h
        rcases h with hm | hm
        · exact mem_ensure_evs hm
        · exact mem_addDisks_evs hm
      · simp at h
        rcases h with hm | hm
        · exact mem_ensure_evs hm
        · exact mem_addDisks_evs hm

theorem mem_buildAndLaunch_evs {fs1 : FS} {cwd : String} {vm : VmConfig} {ow : Bool}
    {e : Event} (h : e ∈ (buildAndLaunch fs1 cwd vm ow).1) :
    diskEv e = true ∨ ifaceEv e = true ∨ ∃ a d, e = Event.launch a d := by
  unfold buildAndLaunch at h
  simp only at h
  split at h
  · exact Or.inr (Or.inl (mem_keyLoop_evs (by simpa using h)))
  · split at h
    · simp only [List.mem_append] at h
      rcases h with hm | hm
      · exact Or.inr (Or.inl (mem_keyLoop_evs hm))
      · exact Or.inl (mem_drivesPhase_evs hm)
    · simp only [List.append_assoc, List.mem_append, List.mem_singleton] at h
      rcases h with hm | hm | hm
      · exact Or.inr (Or.inl (mem_keyLoop_evs hm))
      · exact Or.inl (mem_drivesPhase_evs hm)
      · subst hm
        exact Or.inr (Or.inr ⟨_, _, rfl⟩)

/-- Every event in a `launch_single_vm` trace is a disk event, an
interface event, or the final launch. -/
theorem mem_launch_evs {fs : FS} {vm : VmConfig} {ow kill : Bool} {e : Event}
    (h : e ∈ (launch_single_vm fs vm ow kill).2.1) :
    diskEv e = true ∨ ifaceEv e = true ∨ ∃ a d, e = Event.launch a d := by
  unfold launch_single_vm at h
  split at h
  · simp at h
  · rename_i rp0 hrp0
    simp only at h
    by_cases hc1 : (check_file_exists fs rp0).2 = true
    · rw [if_pos hc1] at h
      by_cases hc2 : (validate_image_use fs rp0 kill).2.2 = false
      · rw [if_pos hc2] at h
        simp only [List.mem_append] at h
        rcases h with hm | hm
        · unfold check_file_exists at hm
          simp at hm
          subst hm
          exact Or.inl rfl
        · exact Or.inl (mem_validate_evs hm)
      · rw [if_neg hc2] at h
        simp only [List.append_assoc, List.mem_append] at h
        rcases h with hm | hm | hm
        · unfold check_file_exists at hm
          simp at hm
          subst hm
          exact Or.inl rfl
        · exact Or.inl (mem_validate_evs hm)
        · exact mem_buildAndLaunch_evs hm
    · rw [if_neg hc1] at h
      simp only [show ((fs, ([] : List Event), true).2.2 = false) = False by simp,
        if_false] at h
      simp only [List.nil_append, List.mem_append] at h
      rcases h with hm | hm
      · unfold check_file_exists at hm
        simp at hm
        subst hm
        exact Or.inl rfl
      · exact mem_buildAndLaunch_evs hm

/-! ## Observations of classified traces -/

theorem nicSlotsOf_nil_of_disk {l : List Event} (h : ∀ e ∈ l, diskEv e = true) :
    nicSlotsOf l = [] := by
  unfold nicSlotsOf
  refine List.filterMap_eq_nil_iff.mpr fun e he => ?_
  have hd := h e he
  cases e <;> first | rfl | simp [diskEv] at hd

theorem launchesOf_nil_of_disk {l : List Event} (h : ∀ e ∈ l, diskEv e = true) :
    launchesOf l = [] := by
  unfold launchesOf
  refine List.filterMap_eq_nil_iff.mpr fun e he => ?_
  have hd := h e he
  cases e <;> first | rfl | simp [diskEv] at hd

theorem launchesOf_nil_of_iface {l : List Event} (h : ∀ e ∈ l, ifaceEv e = true) :
    launchesOf l = [] := by
  unfold launchesOf
  refine List.filterMap_eq_nil_iff.mpr fun e he => ?_
  have hd := h e he
  cases e <;> first | rfl | simp [ifaceEv] at hd

theorem transfersOf_nil_of_iface {l : List Event} (h : ∀ e ∈ l, ifaceEv e = true) :
    transfersOf l = [] := by
  unfold transfersOf
  refine List.filterMap_eq_nil_iff.mpr fun e he => ?_
  have hd := h e he
  cases e <;> first | rfl | simp [ifaceEv] at hd

theorem nicSlotsOf_nil_of_iface_noNic {l : List Event}
    (h : ∀ e ∈ l, diskEv e = true ∨ (∃ a d, e = Event.launch a d)) :
    nicSlotsOf l = [] := by
  unfold nicSlotsOf
  refine List.filterMap_eq_nil_iff.mpr fun e he => ?_
  rcases h e he with hd | ⟨a, d, rfl⟩
  · cases e <;> first | rfl | simp [diskEv] at hd
  · rfl

theorem nicSlotsOf_append (l1 l2 : List Event) :
    nicSlotsOf (l1 ++ l2) = nicSlotsOf l1 ++ nicSlotsOf l2 :=
  List.filterMap_append l1 l2 _

theorem launchesOf_append (l1 l2 : List Event) :
    launchesOf (l1 ++ l2) = launchesOf l1 ++ launchesOf l2 :=
  List.filterMap_append l1 l2 _

theorem transfersOf_append (l1 l2 : List Event) :
    transfersOf (l1 ++ l2) = transfersOf l1 ++ transfersOf l2 :=
  List.filterMap_append l1 l2 _

/-! ## The interface loop: argument extension, token shapes, slots -/

theorem ifaceLoop_args_ext (l : List Iface) (args : List String) (i : Nat) :
    ∃ t, (ifaceLoop args i l).1 = args ++ t := by
  induction l generalizing args i with
  | nil => exact ⟨[], by simp [ifaceLoop]⟩
  | cons f rest ih =>
    rw [ifaceLoop]
    by_cases h1 : f.itype = "macvtap"
    · obtain ⟨t, ht⟩ := ih (args ++ macvtap_get_args f i) (i + 1)
      exact ⟨macvtap_get_args f i ++ t, by simp [h1, ht]⟩
    · by_cases h2 : f.itype = "tap"
      · obtain ⟨t, ht⟩ := ih (args ++ tap_get_args f i) (i + 1)
        exact ⟨tap_get_args f i ++ t, by simp [h1, h2, ht]⟩
      · by_cases h3 : f.itype = "user"
        · obtain ⟨t, ht⟩ := ih (args ++ user_get_args f) i
          exact ⟨user_get_args f ++ t, by simp [h1, h2, h3, ht]⟩
        · exact ⟨[], by simp [h1, h2, h3]⟩

theorem ifaceLoop_tokens {l : List Iface} {args : List String} {i : Nat} {s : String}
    (h : s ∈ (ifaceLoop args i l).1) : s ∈ args ∨ nicTokP s := by
  induction l generalizing args i with
  | nil => exact Or.inl (by simpa [ifaceLoop] using h)
  | cons f rest ih =>
    rw [ifaceLoop] at h
    by_cases h1 : f.itype = "macvtap"
    · simp only [if_pos h1] at h
      rcases ih h with hm | hm
      · rw [List.mem_append] at hm
        rcases hm with hm | hm
        · exact Or.inl hm
        · unfold macvtap_get_args at hm
          simp at hm
          rcases hm with rfl | rfl | rfl | rfl
          · exact Or.inr (Or.inl rfl)
          · exact Or.inr (Or.inr (Or.inr (Or.inl ⟨_, rfl⟩)))
          · exact Or.inr (Or.inr (Or.inl rfl))
          · exact Or.inr (Or.inr (Or.inr (Or.inr (Or.inr (Or.inr ⟨_, rfl⟩)))))
      · exact Or.inr hm
    · by_cases h2 : f.itype = "tap"
      · simp only [if_neg h1, if_pos h2] at h
        rcases ih h with hm | hm
        · rw [List.mem_append] at hm
          rcases hm with hm | hm
          · exact Or.inl hm
          · unfold tap_get_args at hm
            simp at hm
            rcases hm with rfl | rfl | rfl | rfl
            · exact Or.inr (Or.inl rfl)
            · exact Or.inr (Or.inr (Or.inr (Or.inr (Or.inl ⟨_, rfl⟩))))
            · exact Or.inr (Or.inr (Or.inl rfl))
            · exact Or.inr (Or.inr (Or.inr (Or.inr (Or.inr (Or.inr ⟨_, rfl⟩)))))
        · exact Or.inr hm
      · by_cases h3 : f.itype = "user"
        · simp only [if_neg h1, if_neg h2, if_pos h3] at h
          rcases ih h with hm | hm
          · rw [List.mem_append] at hm
            rcases hm with hm | hm
            · exact Or.inl hm
            · unfold user_get_args at hm
              simp at hm
              rcases hm with rfl | rfl
              · exact Or.inr (Or.inl rfl)
              · exact Or.inr (Or.inr (Or.inr (Or.inr (Or.inr (Or.inl ⟨_, rfl⟩)))))
          · exact Or.inr hm
        · simp only [if_neg h1, if_neg h2, if_neg h3] at h
          exact Or.inl h

theorem nicSlotsOf_cons_create (t : String) (l : List Event) :
    nicSlotsOf (Event.createIface t :: l) = nicSlotsOf l := rfl

theorem nicSlotsOf_cons_attach (t : String) (s : Nat) (l : List Event) :
    nicSlotsOf (Event.attachNic t s :: l) = (t, s) :: nicSlotsOf l := rfl

theorem nicSlotsOf_cons_user (l : List Event) :
    nicSlotsOf (Event.userNic :: l) = nicSlotsOf l := rfl

theorem attachedTypes_cons_attached {f : Iface} (rest : List Iface)
    (h : f.itype = "macvtap" ∨ f.itype = "tap") :
    attachedTypes (f :: rest) = f.itype :: attachedTypes rest := by
  have hc : (f.itype == "macvtap" || f.itype == "tap") = true := by
    rcases h with h | h <;> simp [h]
  unfold attachedTypes
  rw [List.filter_cons, if_pos hc]
  rfl

theorem attachedTypes_cons_user {f : Iface} (rest : List Iface) (h : f.itype = "user") :
    attachedTypes (f :: rest) = attachedTypes rest := by
  have hc : ¬((f.itype == "macvtap" || f.itype == "tap") = true) := by simp [h]
  unfold attachedTypes
  rw [List.filter_cons, if_neg hc]

/-- On success, the interface loop assigns the VM-attached interfaces,
in document order, the consecutive slots starting at `i`. -/
theorem ifaceLoop_nic (l : List Iface) (args : List String) (i : Nat)
    (hok : (ifaceLoop args i l).2.2.2 = .ok ()) :
    nicSlotsOf (ifaceLoop args i l).2.2.1 =
      (attachedTypes l).zip (List.range' i (attachedTypes l).length) := by
  induction l generalizing args i with
  | nil => simp [ifaceLoop, nicSlotsOf, attachedTypes]
  | cons f rest ih =>
    rw [ifaceLoop] at hok ⊢
    by_cases h1 : f.itype = "macvtap"
    · simp only [if_pos h1] at hok ⊢
      have hrec := ih (args ++ macvtap_get_args f i) (i + 1) hok
      rw [List.cons_append, List.cons_append, List.nil_append,
        nicSlotsOf_cons_create, nicSlotsOf_cons_attach, hrec,
        attachedTypes_cons_attached rest (Or.inl h1), h1]
      simp [List.range'_succ]
    · by_cases h2 : f.itype = "tap"
      · simp only [if_neg h1, if_pos h2] at hok ⊢
        have hrec := ih (args ++ tap_get_args f i) (i + 1) hok
        rw [List.cons_append, List.cons_append, List.nil_append,
          nicSlotsOf_cons_create, nicSlotsOf_cons_attach, hrec,
          attachedTypes_cons_attached rest (Or.inr h2), h2]
        simp [List.range'_succ]
      · by_cases h3 : f.itype = "user"
        · simp only [if_neg h1, if_neg h2, if_pos h3] at hok ⊢
          have hrec := ih (args ++ user_get_args f) i hok
          rw [List.cons_append, List.nil_append, nicSlotsOf_cons_user, hrec,
            attachedTypes_cons_user rest h3]
        · simp only [if_neg h1, if_neg h2, if_neg h3] at hok
          simp at hok

/-! ## The key loop -/

theorem keyLoop_args_ext (cwd : String) (l : List Entry) (args : List String) (dm : String) :
    ∃ t, (keyLoop cwd args dm l).1 = args ++ t := by
  induction l generalizing args dm with
  | nil => exact ⟨[], by simp [keyLoop]⟩
  | cons en rest ih =>
    cases en with
    | memory v =>
      rw [keyLoop]
      obtain ⟨t, ht⟩ := ih (args ++ ["-m", natToString v]) dm
      exact ⟨["-m", natToString v] ++ t, by rw [ht, List.append_assoc]⟩
    | cpu_count v =>
      rw [keyLoop]
      obtain ⟨t, ht⟩ := ih (args ++ ["-smp", natToString v]) dm
      exact ⟨["-smp", natToString v] ++ t, by rw [ht, List.append_assoc]⟩
    | virtfs_path v =>
      rw [keyLoop]
      obtain ⟨t, ht⟩ := ih (args ++ ["-virtfs",
        "local,path=" ++ (if v = "{pwd}" then cwd else v) ++
          ",security_model=mapped-xattr,mount_tag=share,id=share"]) dm
      refine ⟨["-virtfs",
        "local,path=" ++ (if v = "{pwd}" then cwd else v) ++
          ",security_model=mapped-xattr,mount_tag=share,id=share"] ++ t, ?_⟩
      rw [ht, List.append_assoc]
    | interfaces il =>
      rw [keyLoop]
      simp only []
      split
      · obtain ⟨t, ht⟩ := ifaceLoop_args_ext il args 4
        exact ⟨t, ht⟩
      · obtain ⟨t1, ht1⟩ := ifaceLoop_args_ext il args 4
        obtain ⟨t2, ht2⟩ := ih (ifaceLoop args 4 il).1 dm
        exact ⟨t1 ++ t2, by rw [ht2, ht1, List.append_assoc]⟩
    | display_mode v =>
      rw [keyLoop]
      by_cases h1 : v = "background"
      · rw [if_pos h1]
        obtain ⟨t, ht⟩ := ih (args ++ ["-vga", "none", "-serial", "none", "-nographic"]) "background"
        exact ⟨["-vga", "none", "-serial", "none", "-nographic"] ++ t,
          by rw [ht, List.append_assoc]⟩
      · by_cases h2 : v = "terminal"
        · rw [if_neg h1, if_pos h2]
          obtain ⟨t, ht⟩ := ih (args ++ ["-vga", "none", "-nographic"]) dm
          exact ⟨["-vga", "none", "-nographic"] ++ t, by rw [ht, List.append_assoc]⟩
        · by_cases h3 : v = "graphic"
          · rw [if_neg h1, if_neg h2, if_pos h3]
            obtain ⟨t, ht⟩ := ih (args ++ ["-vga", "virtio"]) "graphic"
            exact ⟨["-vga", "virtio"] ++ t, by rw [ht, List.append_assoc]⟩
          · rw [if_neg h1, if_neg h2, if_neg h3]
            exact ⟨[], by simp⟩
    | remote_disk_image_path v => rw [keyLoop]; exact ih args dm
    | local_disk_image_path v => rw [keyLoop]; exact ih args dm
    | additional_disk_images l2 => rw [keyLoop]; exact ih args dm
    | other k => rw [keyLoop]; exact ih args dm

theorem keyLoop_tokens {cwd : String} {l : List Entry} {args : List String} {dm : String}
    {s : String} (h : s ∈ (keyLoop cwd args dm l).1) :
    s ∈ args ∨ ∃ en ∈ l, entryTokP cwd en s := by
  induction l generalizing args dm with
  | nil => exact Or.inl (by simpa [keyLoop] using h)
  | cons en rest ih =>
    cases en with
    | memory v =>
      rw [keyLoop] at h
      rcases ih h with hm | ⟨e2, he2, hp⟩
      · rw [List.mem_append] at hm
        rcases hm with hm | hm
        · exact Or.inl hm
        · simp at hm
          rcases hm with rfl | rfl
          · exact Or.inr ⟨Entry.memory v, by simp, Or.inl rfl⟩
          · exact Or.inr ⟨Entry.memory v, by simp, Or.inr rfl⟩
      · exact Or.inr ⟨e2, by simp [he2], hp⟩
    | cpu_count v =>
      rw [keyLoop] at h
      rcases ih h with hm | ⟨e2, he2, hp⟩
      · rw [List.mem_append] at hm
        rcases hm with hm | hm
        · exact Or.inl hm
        · simp at hm
          rcases hm with rfl | rfl
          · exact Or.inr ⟨Entry.cpu_count v, by simp, Or.inl rfl⟩
          · exact Or.inr ⟨Entry.cpu_count v, by simp, Or.inr rfl⟩
      · exact Or.inr ⟨e2, by simp [he2], hp⟩
    | virtfs_path v =>
      rw [keyLoop] at h
      rcases ih h with hm | ⟨e2, he2, hp⟩
      · rw [List.mem_append] at hm
        rcases hm with hm | hm
        · exact Or.inl hm
        · simp at hm
          rcases hm with rfl | rfl
          · exact Or.inr ⟨Entry.virtfs_path v, by simp, Or.inl rfl⟩
          · exact Or.inr ⟨Entry.virtfs_path v, by simp, Or.inr rfl⟩
      · exact Or.inr ⟨e2, by simp [he2], hp⟩
    | interfaces il =>
      rw [keyLoop] at h
      simp only [] at h
      split at h
      · rcases ifaceLoop_tokens h with hm | hm
        · exact Or.inl hm
        · exact Or.inr ⟨Entry.interfaces il, by simp, hm⟩
      · rcases ih h with hm | ⟨e2, he2, hp⟩
        · rcases ifaceLoop_tokens hm with hm2 | hm2
          · exact Or.inl hm2
          · exact Or.inr ⟨Entry.interfaces il, by simp, hm2⟩
        · exact Or.inr ⟨e2, by simp [he2], hp⟩
    | display_mode v =>
      rw [keyLoop] at h
      by_cases h1 : v = "background"
      · rw [if_pos h1] at h
        rcases ih h with hm | ⟨e2, he2, hp⟩
        · rw [List.mem_append] at hm
          rcases hm with hm | hm
          · exact Or.inl hm
          · simp at hm
            rcases hm with rfl | rfl | rfl | rfl | rfl
            · exact Or.inr ⟨Entry.display_mode v, by simp, Or.inl rfl⟩
            · exact Or.inr ⟨Entry.display_mode v, by simp, Or.inr (Or.inl rfl)⟩
            · exact Or.inr ⟨Entry.display_mode v, by simp, Or.inr (Or.inr (Or.inl rfl))⟩
            · exact Or.inr ⟨Entry.display_mode v, by simp, Or.inr (Or.inl rfl)⟩
            · exact Or.inr ⟨Entry.display_mode v, by simp,
                Or.inr (Or.inr (Or.inr (Or.inl rfl)))⟩
        · exact Or.inr ⟨e2, by simp [he2], hp⟩
      · by_cases h2 : v = "terminal"
        · rw [if_neg h1, if_pos h2] at h
          rcases ih h with hm | ⟨e2, he2, hp⟩
          · rw [List.mem_append] at hm
            rcases hm with hm | hm
            · exact Or.inl hm
            · simp at hm
              rcases hm with rfl | rfl | rfl
              · exact Or.inr ⟨Entry.display_mode v, by simp, Or.inl rfl⟩
              · exact Or.inr ⟨Entry.display_mode v, by simp, Or.inr (Or.inl rfl)⟩
              · exact Or.inr ⟨Entry.display_mode v, by simp,
                  Or.inr (Or.inr (Or.inr (Or.inl rfl)))⟩
          · exact Or.inr ⟨e2, by simp [he2], hp⟩
        · by_cases h3 : v = "graphic"
          · rw [if_neg h1, if_neg h2, if_pos h3] at h
            rcases ih h with hm | ⟨e2, he2, hp⟩
            · rw [List.mem_append] at hm
              rcases hm with hm | hm
              · exact Or.inl hm
              · simp at hm
                rcases hm with rfl | rfl
                · exact Or.inr ⟨Entry.display_mode v, by simp, Or.inl rfl⟩
                · exact Or.inr ⟨Entry.display_mode v, by simp,
                    Or.inr (Or.inr (Or.inr (Or.inr rfl)))⟩
            · exact Or.inr ⟨e2, by simp [he2], hp⟩
          · rw [if_neg h1, if_neg h2, if_neg h3] at h
            exact Or.inl h
    | remote_disk_image_path v =>
      rw [keyLoop] at h
      rcases ih h with hm | ⟨e2, he2, hp⟩
      · exact Or.inl hm
      · exact Or.inr ⟨e2, by simp [he2], hp⟩
    | local_disk_image_path v =>
      rw [keyLoop] at h
      rcases ih h with hm | ⟨e2, he2, hp⟩
      · exact Or.inl hm
      · exact Or.inr ⟨e2, by simp [he2], hp⟩
    | additional_disk_images l2 =>
      rw [keyLoop] at h
      rcases ih h with hm | ⟨e2, he2, hp⟩
      · exact Or.inl hm
      · exact Or.inr ⟨e2, by simp [he2], hp⟩
    | other k =>
      rw [keyLoop] at h
      rcases ih h with hm | ⟨e2, he2, hp⟩
      · exact Or.inl hm
      · exact Or.inr ⟨e2, by simp [he2], hp⟩

/-- A configuration with no `interfaces` entry produces no events in
the key loop. -/
theorem keyLoop_evs_nil {cwd : String} {l : List Entry} (args : List String) (dm : String)
    (hif : ifaceEntries l = []) :
    (keyLoop cwd args dm l).2.2.1 = [] := by
  induction l generalizing args dm with
  | nil => simp [keyLoop]
  | cons en rest ih =>
    cases en with
    | memory v => rw [keyLoop]; exact ih _ _ (by simpa [ifaceEntries] using hif)
    | cpu_count v => rw [keyLoop]; exact ih _ _ (by simpa [ifaceEntries] using hif)
    | virtfs_path v => rw [keyLoop]; exact ih _ _ (by simpa [ifaceEntries] using hif)
    | interfaces il => simp [ifaceEntries] at hif
    | display_mode v =>
      rw [keyLoop]
      by_cases h1 : v = "background"
      · rw [if_pos h1]; exact ih _ _ (by simpa [ifaceEntries] using hif)
      · by_cases h2 : v = "terminal"
        · rw [if_neg h1, if_pos h2]; exact ih _ _ (by simpa [ifaceEntries] using hif)
        · by_cases h3 : v = "graphic"
          · rw [if_neg h1, if_neg h2, if_pos h3]
            exact ih _ _ (by simpa [ifaceEntries] using hif)
          · rw [if_neg h1, if_neg h2, if_neg h3]
    | remote_disk_image_path v =>
      rw [keyLoop]; exact ih _ _ (by simpa [ifaceEntries] using hif)
    | local_disk_image_path v =>
      rw [keyLoop]; exact ih _ _ (by simpa [ifaceEntries] using hif)
    | additional_disk_images l2 =>
      rw [keyLoop]; exact ih _ _ (by simpa [ifaceEntries] using hif)
    | other k => rw [keyLoop]; exact ih _ _ (by simpa [ifaceEntries] using hif)

/-- With exactly one `interfaces` entry, the NIC attachments of the key
loop are those of the interface loop started at slot 4. -/
theorem keyLoop_nic {cwd : String} {l : List Entry} {args : List String} {dm : String}
    {il : List Iface} (hok : (keyLoop cwd args dm l).2.2.2 = .ok ())
    (hif : ifaceEntries l = [il]) :
    nicSlotsOf (keyLoop cwd args dm l).2.2.1 =
      (attachedTypes il).zip (List.range' 4 (attachedTypes il).length) := by
  induction l generalizing args dm with
  | nil => simp [ifaceEntries] at hif
  | cons en rest ih =>
    cases en with
    | memory v =>
      rw [keyLoop] at hok ⊢
      exact ih hok (by simpa [ifaceEntries] using hif)
    | cpu_count v =>
      rw [keyLoop] at hok ⊢
      exact ih hok (by simpa [ifaceEntries] using hif)
    | virtfs_path v =>
      rw [keyLoop] at hok ⊢
      exact ih hok (by simpa [ifaceEntries] using hif)
    | interfaces il2 =>
      have hil : il2 = il ∧ ifaceEntries rest = [] := by
        have h' := hif
        simp [ifaceEntries] at h'
        exact ⟨h'.1, List.filterMap_eq_nil_iff.mpr h'.2⟩
      obtain ⟨heq, hrest⟩ := hil
      subst heq
      rw [keyLoop] at hok ⊢
      simp only [] at hok ⊢
      split at hok
      · simp at hok
      · rename_i hfl
        simp only [] at hok
        show nicSlotsOf ((ifaceLoop args 4 il2).2.2.1 ++
            (keyLoop cwd (ifaceLoop args 4 il2).1 dm rest).2.2.1) =
          (attachedTypes il2).zip (List.range' 4 (attachedTypes il2).length)
        rw [nicSlotsOf_append, keyLoop_evs_nil _ _ hrest]
        rw [show nicSlotsOf ([] : List Event) = [] from rfl, List.append_nil]
        exact ifaceLoop_nic il2 args 4 hfl
    | display_mode v =>
      rw [keyLoop] at hok ⊢
      by_cases h1 : v = "background"
      · rw [if_pos h1] at hok ⊢
        exact ih hok (by simpa [ifaceEntries] using hif)
      · by_cases h2 : v = "terminal"
        · rw [if_neg h1, if_pos h2] at hok ⊢
          exact ih hok (by simpa [ifaceEntries] using hif)
        · by_cases h3 : v = "graphic"
          · rw [if_neg h1, if_neg h2, if_pos h3] at hok ⊢
            exact ih hok (by simpa [ifaceEntries] using hif)
          · rw [if_neg h1, if_neg h2, if_neg h3] at hok
            simp at hok
    | remote_disk_image_path v =>
      rw [keyLoop] at hok ⊢
      exact ih hok (by simpa [ifaceEntries] using hif)
    | local_disk_image_path v =>
      rw [keyLoop] at hok ⊢
      exact ih hok (by simpa [ifaceEntries] using hif)
    | additional_disk_images l2 =>
      rw [keyLoop] at hok ⊢
      exact ih hok (by simpa [ifaceEntries] using hif)
    | other k =>
      rw [keyLoop] at hok ⊢
      exact ih hok (by simpa [ifaceEntries] using hif)

/-- On success, the final `display_mode` variable is the fold of the
`display_mode` entries over the initial value. -/
theorem keyLoop_dm {cwd : String} {l : List Entry} {args : List String} {dm : String}
    (hok : (keyLoop cwd args dm l).2.2.2 = .ok ()) :
    (keyLoop cwd args dm l).2.1 = dmFold dm (dmEntries l) := by
  induction l generalizing args dm with
  | nil => simp [keyLoop, dmEntries, dmFold]
  | cons en rest ih =>
    cases en with
    | memory v =>
      rw [keyLoop] at hok ⊢
      rw [ih hok]
      simp [dmEntries]
    | cpu_count v =>
      rw [keyLoop] at hok ⊢
      rw [ih hok]
      simp [dmEntries]
    | virtfs_path v =>
      rw [keyLoop] at hok ⊢
      rw [ih hok]
      simp [dmEntries]
    | interfaces il2 =>
      rw [keyLoop] at hok ⊢
      simp only [] at hok ⊢
      split at hok
      · simp at hok
      · rename_i hfl
        simp only [] at hok
        show (keyLoop cwd (ifaceLoop args 4 il2).1 dm rest).2.1 =
          dmFold dm (dmEntries (Entry.interfaces il2 :: rest))
        rw [ih hok]
        simp [dmEntries]
    | display_mode v =>
      rw [keyLoop] at hok ⊢
      by_cases h1 : v = "background"
      · rw [if_pos h1] at hok ⊢
        rw [ih hok]
        simp [dmEntries, dmFold, h1]
      · by_cases h2 : v = "terminal"
        · rw [if_neg h1, if_pos h2] at hok ⊢
          rw [ih hok]
          simp [dmEntries, dmFold, h1, h2]
        · by_cases h3 : v = "graphic"
          · rw [if_neg h1, if_neg h2, if_pos h3] at hok ⊢
            rw [ih hok]
            simp [dmEntries, dmFold, h1, h3]
          · rw [if_neg h1, if_neg h2, if_neg h3] at hok
            simp at hok
    | remote_disk_image_path v =>
      rw [keyLoop] at hok ⊢
      rw [ih hok]
      simp [dmEntries]
    | local_disk_image_path v =>
      rw [keyLoop] at hok ⊢
      rw [ih hok]
      simp [dmEntries]
    | additional_disk_images l2 =>
      rw [keyLoop] at hok ⊢
      rw [ih hok]
      simp [dmEntries]
    | other k =>
      rw [keyLoop] at hok ⊢
      rw [ih hok]
      simp [dmEntries]

/-- Tokens present in the running argument vector survive the key loop. -/
theorem keyLoop_mono {cwd : String} (l : List Entry) {args : List String} (dm : String)
    {s : String} (h : s ∈ args) : s ∈ (keyLoop cwd args dm l).1 := by
  obtain ⟨t, ht⟩ := keyLoop_args_ext cwd l args dm
  rw [ht, List.mem_append]
  exact Or.inl h

/-- `dmEntries` of a configuration starting with a `display_mode`
entry. -/
theorem dmEntries_cons_dm (v : String) (rest : List Entry) :
    dmEntries (Entry.display_mode v :: rest) = v :: dmEntries rest := rfl

/-- On success, a `display_mode = "background"` entry leaves
`-nographic` in the argument vector. -/
theorem keyLoop_frag_bg {cwd : String} {l : List Entry} {args : List String} {dm : String}
    (hok : (keyLoop cwd args dm l).2.2.2 = .ok ())
    (hbg : "background" ∈ dmEntries l) :
    "-nographic" ∈ (keyLoop cwd args dm l).1 := by
  induction l generalizing args dm with
  | nil => simp [dmEntries] at hbg
  | cons en rest ih =>
    cases en with
    | memory v =>
      rw [keyLoop] at hok ⊢
      exact ih hok hbg
    | cpu_count v =>
      rw [keyLoop] at hok ⊢
      exact ih hok hbg
    | virtfs_path v =>
      rw [keyLoop] at hok ⊢
      exact ih hok hbg
    | interfaces il2 =>
      rw [keyLoop] at hok ⊢
      simp only [] at hok ⊢
      split at hok
      · simp at hok
      · rename_i hfl
        simp only [] at hok
        show "-nographic" ∈ (keyLoop cwd (ifaceLoop args 4 il2).1 dm rest).1
        exact ih hok hbg
    | display_mode v =>
      rw [keyLoop] at hok ⊢
      rw [dmEntries_cons_dm] at hbg
      by_cases h1 : v = "background"
      · rw [if_pos h1] at hok ⊢
        exact keyLoop_mono rest "background" (by simp)
      · have hbg' : "background" ∈ dmEntries rest := by
          rcases List.mem_cons.mp hbg with hx | hx
          · exact absurd hx.symm h1
          · exact hx
        by_cases h2 : v = "terminal"
        · rw [if_neg h1, if_pos h2] at hok ⊢
          exact ih hok hbg'
        · by_cases h3 : v = "graphic"
          · rw [if_neg h1, if_neg h2, if_pos h3] at hok ⊢
            exact ih hok hbg'
          · rw [if_neg h1, if_neg h2, if_neg h3] at hok
            simp at hok
    | remote_disk_image_path v =>
      rw [keyLoop] at hok ⊢
      exact ih hok hbg
    | local_disk_image_path v =>
      rw [keyLoop] at hok ⊢
      exact ih hok hbg
    | additional_disk_images l2 =>
      rw [keyLoop] at hok ⊢
      exact ih hok hbg
    | other k =>
      rw [keyLoop] at hok ⊢
      exact ih hok hbg

/-- On success, a `display_mode = "graphic"` entry leaves the
contiguous fragment `-vga virtio` in the argument vector. -/
theorem keyLoop_frag_graphic {cwd : String} {l : List Entry} {args : List String}
    {dm : String} (hok : (keyLoop cwd args dm l).2.2.2 = .ok ())
    (hg : "graphic" ∈ dmEntries l) :
    ∃ x y, (keyLoop cwd args dm l).1 = x ++ ["-vga", "virtio"] ++ y := by
  induction l generalizing args dm with
  | nil => simp [dmEntries] at hg
  | cons en rest ih =>
    cases en with
    | memory v =>
      rw [keyLoop] at hok ⊢
      exact ih hok hg
    | cpu_count v =>
      rw [keyLoop] at hok ⊢
      exact ih hok hg
    | virtfs_path v =>
      rw [keyLoop] at hok ⊢
      exact ih hok hg
    | interfaces il2 =>
      rw [keyLoop] at hok ⊢
      simp only [] at hok ⊢
      split at hok
      · simp at hok
      · rename_i hfl
        simp only [] at hok
        show ∃ x y, (keyLoop cwd (ifaceLoop args 4 il2).1 dm rest).1 =
          x ++ ["-vga", "virtio"] ++ y
        exact ih hok hg
    | display_mode v =>
      rw [keyLoop] at hok ⊢
      rw [dmEntries_cons_dm] at hg
      by_cases h3 : v = "graphic"
      · have hng : ¬v = "background" := by rw [h3]; decide
        have hnt : ¬v = "terminal" := by rw [h3]; decide
        rw [if_neg hng, if_neg hnt, if_pos h3] at hok ⊢
        obtain ⟨t, ht⟩ := keyLoop_args_ext cwd rest (args ++ ["-vga", "virtio"]) "graphic"
        exact ⟨args, t, by rw [ht, List.append_assoc]⟩
      · have hg' : "graphic" ∈ dmEntries rest := by
          rcases List.mem_cons.mp hg with hx | hx
          · exact absurd hx.symm h3
          · exact hx
        by_cases h1 : v = "background"
        · rw [if_pos h1] at hok ⊢
          exact ih hok hg'
        · by_cases h2 : v = "terminal"
          · rw [if_neg h1, if_pos h2] at hok ⊢
            exact ih hok hg'
          · rw [if_neg h1, if_neg h2, if_neg h3] at hok
            simp at hok
    | remote_disk_image_path v =>
      rw [keyLoop] at hok ⊢
      exact ih hok hg
    | local_disk_image_path v =>
      rw [keyLoop] at hok ⊢
      exact ih hok hg
    | additional_disk_images l2 =>
      rw [keyLoop] at hok ⊢
      exact ih hok hg
    | other k =>
      rw [keyLoop] at hok ⊢
      exact ih hok hg

/-! ## Drives phase and launch decomposition -/

theorem driveFrags_cons (p : String) (ps : List String) (n : Nat) :
    driveFrags (p :: ps) n = driveFrag p n ++ driveFrags ps (n + 1) := rfl

/-- On success, the additional-disks loop appends exactly the drive
fragments of the extra disks, at consecutive indices. -/
theorem addDisksLoop_args {fs : FS} {ow : Bool} {args : List String} {n : Nat}
    {ds : List DiskSpec} (hok : (addDisksLoop fs ow args n ds).2.2 = .ok ()) :
    (addDisksLoop fs ow args n ds).1 =
      args ++ driveFrags (ds.map DiskSpec.remote_disk_image_path) n := by
  induction ds generalizing args n with
  | nil => simp [addDisksLoop, driveFrags]
  | cons d rest ih =>
    rw [addDisksLoop] at hok ⊢
    simp only [] at hok ⊢
    split at hok
    · simp at hok
    · rename_i hen
      simp only [] at hok
      show (addDisksLoop fs ow (args ++ driveFrag d.remote_disk_image_path n) (n + 1) rest).1 =
        args ++ driveFrags ((d :: rest).map DiskSpec.remote_disk_image_path) n
      rw [ih hok, List.map_cons, driveFrags_cons, List.append_assoc]

/-- On success, the drives phase returns the input arguments followed
by all drive fragments (primary at index 0), and the discipline
selected by the display-mode variable. -/
theorem drivesPhase_ok {fs1 : FS} {vm : VmConfig} {ow : Bool} {args : List String}
    {dm : String} {ad : List String × Discipline}
    (h : (drivesPhase fs1 vm ow args dm).2 = .ok ad) :
    ad = (args ++ driveFrags (getRemotePathD vm ::
            (getAdditional vm).map DiskSpec.remote_disk_image_path) 0,
          if (dm == "background" || dm == "graphic") = true then Discipline.detachedNoOutput
          else Discipline.blockingPty) := by
  unfold drivesPhase at h
  split at h
  · simp at h
  · simp only [] at h
    split at h
    · simp at h
    · rename_i hen
      split at h
      · simp at h
      · rename_i hadd
        simp only [] at h
        simp only [Except.ok.injEq] at h
        rw [← h]
        rw [Prod.mk.injEq]
        refine ⟨?_, rfl⟩
        rw [addDisksLoop_args hadd, driveFrags_cons, List.append_assoc]

/-- On success, the build-and-launch phase produces the key-loop events
followed by disk events and one final launch of the assembled command. -/
theorem buildAndLaunch_ok {fs1 : FS} {cwd : String} {vm : VmConfig} {ow : Bool}
    (hok : (buildAndLaunch fs1 cwd vm ow).2 = .ok ()) :
    ∃ devs,
      (∀ e ∈ devs, diskEv e = true) ∧
      (keyLoop cwd baseArgs "" vm).2.2.2 = .ok () ∧
      (buildAndLaunch fs1 cwd vm ow).1 =
        (keyLoop cwd baseArgs "" vm).2.2.1 ++ devs ++
          [Event.launch
            ((keyLoop cwd baseArgs "" vm).1 ++
              driveFrags (getRemotePathD vm ::
                (getAdditional vm).map DiskSpec.remote_disk_image_path) 0)
            (if ((keyLoop cwd baseArgs "" vm).2.1 == "background" ||
                 (keyLoop cwd baseArgs "" vm).2.1 == "graphic") = true
             then Discipline.detachedNoOutput else Discipline.blockingPty)] := by
  unfold buildAndLaunch at hok ⊢
  simp only [] at hok ⊢
  split at hok
  · simp at hok
  · rename_i hk
    split at hok
    · simp at hok
    · rename_i ad hdp
      have had := drivesPhase_ok hdp
      refine ⟨(drivesPhase fs1 vm ow (keyLoop cwd baseArgs "" vm).1
        (keyLoop cwd baseArgs "" vm).2.1).1, ?_, hk, ?_⟩
      · intro e he
        exact mem_drivesPhase_evs he
      · rw [had, List.append_assoc]

/-- On success, a `launch_single_vm` trace is: primary-disk probe
events, the key-loop events, disk events, and one final launch of the
assembled command with the selected discipline. -/
theorem launch_ok_decomp {fs : FS} {vm : VmConfig} {ow kill : Bool}
    (hok : (launch_single_vm fs vm ow kill).2.2 = .ok ()) :
    ∃ pevs devs,
      (∀ e ∈ pevs, diskEv e = true) ∧
      (∀ e ∈ devs, diskEv e = true) ∧
      (keyLoop fs.cwd baseArgs "" vm).2.2.2 = .ok () ∧
      (launch_single_vm fs vm ow kill).2.1 =
        pevs ++ ((keyLoop fs.cwd baseArgs "" vm).2.2.1 ++ devs ++
          [Event.launch
            ((keyLoop fs.cwd baseArgs "" vm).1 ++
              driveFrags (getRemotePathD vm ::
                (getAdditional vm).map DiskSpec.remote_disk_image_path) 0)
            (if ((keyLoop fs.cwd baseArgs "" vm).2.1 == "background" ||
                 (keyLoop fs.cwd baseArgs "" vm).2.1 == "graphic") = true
             then Discipline.detachedNoOutput else Discipline.blockingPty)]) := by
  unfold launch_single_vm at hok ⊢
  split at hok
  · simp at hok
  · rename_i rp0 hrp0
    simp only [] at hok ⊢
    by_cases hvb : (if (check_file_exists fs rp0).2 = true
        then validate_image_use fs rp0 kill else (fs, [], true)).2.2 = false
    · rw [if_pos hvb] at hok
      simp at hok
    · rw [if_neg hvb] at hok ⊢
      simp only [] at hok
      obtain ⟨devs, hdevs, hkok, hbl⟩ := buildAndLaunch_ok hok
      refine ⟨(check_file_exists fs rp0).1 ++
        (if (check_file_exists fs rp0).2 = true then validate_image_use fs rp0 kill
         else (fs, [], true)).2.1, devs, ?_, hdevs, hkok, ?_⟩
      · intro e he
        rw [List.mem_append] at he
        rcases he with he | he
        · unfold check_file_exists at he
          simp at he
          subst he
          rfl
        · split at he
          · exact mem_validate_evs he
          · simp at he
      · show (check_file_exists fs rp0).1 ++
          (if (check_file_exists fs rp0).2 = true then validate_image_use fs rp0 kill
           else (fs, [], true)).2.1 ++
          (buildAndLaunch (if (check_file_exists fs rp0).2 = true
              then validate_image_use fs rp0 kill else (fs, [], true)).1 fs.cwd vm ow).1 = _
        rw [hbl, List.append_assoc]

/-! ## Token shapes of the built argument vector -/

theorem strHead_append {a : String} (b : String) {c : Char} (h : a.data.head? = some c) :
    (a ++ b).data.head? = some c := by
  rw [String.data_append]
  rcases hl : a.data with _ | ⟨x, xs⟩
  · rw [hl] at h
    simp at h
  · rw [hl] at h
    simp at h
    simp [h]

/-- No token contributed by the key loop is the literal `-drive`. -/
theorem entryTokP_ne_drive {cwd : String} {en : Entry} {s : String}
    (h : entryTokP cwd en s) : s ≠ "-drive" := by
  cases en with
  | memory v =>
    rcases h with rfl | rfl
    · decide
    · exact natToString_ne v _ (by decide)
  | cpu_count v =>
    rcases h with rfl | rfl
    · decide
    · exact natToString_ne v _ (by decide)
  | virtfs_path v =>
    rcases h with rfl | rfl
    · decide
    · exact append_ne_of_head _ _ _ 'l' '-' (by decide) (by decide) (by decide)
  | interfaces il =>
    rcases h with rfl | rfl | ⟨p, rfl⟩ | ⟨p, rfl⟩ | ⟨p, rfl⟩ | ⟨p, rfl⟩
    · decide
    · decide
    · exact append_ne_of_head _ _ _ 'm' '-' (by decide) (by decide) (by decide)
    · exact append_ne_of_head _ _ _ 't' '-' (by decide) (by decide) (by decide)
    · exact append_ne_of_head _ _ _ 'u' '-' (by decide) (by decide) (by decide)
    · exact append_ne_of_head _ _ _ 'v' '-' (by decide) (by decide) (by decide)
  | display_mode v =>
    rcases h with rfl | rfl | rfl | rfl | rfl <;> decide
  | remote_disk_image_path v => exact absurd h (by simp [entryTokP])
  | local_disk_image_path v => exact absurd h (by simp [entryTokP])
  | additional_disk_images l2 => exact absurd h (by simp [entryTokP])
  | other k => exact absurd h (by simp [entryTokP])

/-- Outside a `display_mode` entry, no key-loop token is `-vga` or
`-nographic`. -/
theorem entryTokP_ne_display {cwd : String} {en : Entry} {s : String}
    (h : entryTokP cwd en s) (hnd : ∀ v, en ≠ Entry.display_mode v) :
    s ≠ "-vga" ∧ s ≠ "-nographic" := by
  cases en with
  | memory v =>
    rcases h with rfl | rfl
    · constructor <;> decide
    · exact ⟨natToString_ne v _ (by decide), natToString_ne v _ (by decide)⟩
  | cpu_count v =>
    rcases h with rfl | rfl
    · constructor <;> decide
    · exact ⟨natToString_ne v _ (by decide), natToString_ne v _ (by decide)⟩
  | virtfs_path v =>
    rcases h with rfl | rfl
    · constructor <;> decide
    · exact ⟨append_ne_of_head _ _ _ 'l' '-' (by decide) (by decide) (by decide),
        append_ne_of_head _ _ _ 'l' '-' (by decide) (by decide) (by decide)⟩
  | interfaces il =>
    rcases h with rfl | rfl | ⟨p, rfl⟩ | ⟨p, rfl⟩ | ⟨p, rfl⟩ | ⟨p, rfl⟩
    · constructor <;> decide
    · constructor <;> decide
    · exact ⟨append_ne_of_head _ _ _ 'm' '-' (by decide) (by decide) (by decide),
        append_ne_of_head _ _ _ 'm' '-' (by decide) (by decide) (by decide)⟩
    · exact ⟨append_ne_of_head _ _ _ 't' '-' (by decide) (by decide) (by decide),
        append_ne_of_head _ _ _ 't' '-' (by decide) (by decide) (by decide)⟩
    · exact ⟨append_ne_of_head _ _ _ 'u' '-' (by decide) (by decide) (by decide),
        append_ne_of_head _ _ _ 'u' '-' (by decide) (by decide) (by decide)⟩
    · exact ⟨append_ne_of_head _ _ _ 'v' '-' (by decide) (by decide) (by decide),
        append_ne_of_head _ _ _ 'v' '-' (by decide) (by decide) (by decide)⟩
  | display_mode v => exact absurd rfl (hnd v)
  | remote_disk_image_path v => exact absurd h (by simp [entryTokP])
  | local_disk_image_path v => exact absurd h (by simp [entryTokP])
  | additional_disk_images l2 => exact absurd h (by simp [entryTokP])
  | other k => exact absurd h (by simp [entryTokP])

/-- Every token of the drive fragments is the literal `-drive` or a
`file=...` payload. -/
theorem mem_driveFrags {ps : List String} {n : Nat} {s : String}
    (h : s ∈ driveFrags ps n) : s = "-drive" ∨ s.data.head? = some 'f' := by
  induction ps generalizing n with
  | nil => simp [driveFrags] at h
  | cons p rest ih =>
    rw [driveFrags_cons, List.mem_append] at h
    rcases h with h | h
    · unfold driveFrag at h
      simp at h
      rcases h with rfl | rfl
      · exact Or.inl rfl
      · exact Or.inr (strHead_append _ (strHead_append _ (strHead_append _
          (strHead_append _ (by decide)))))
    · exact ih h

theorem launchesOf_singleton (a : List String) (d : Discipline) :
    launchesOf [Event.launch a d] = [(a, d)] := rfl

theorem nicSlotsOf_singleton_launch (a : List String) (d : Discipline) :
    nicSlotsOf [Event.launch a d] = [] := rfl

/-! ## C3: slot assignment -/

/-- **C3**: when the configuration has one `interfaces` list and the
launch succeeds, the VM-attached (macvtap/tap) interfaces receive, in
document order, exactly the slot indices `4, 5, ..., 3+N`; `user`
entries consume no slot. -/
theorem C3_slots (fs : FS) (vm : VmConfig) (ow kill : Bool) (il : List Iface)
    (hif : ifaceEntries vm = [il])
    (hok : (launch_single_vm fs vm ow kill).2.2 = .ok ()) :
    nicSlotsOf (launch_single_vm fs vm ow kill).2.1 =
      (attachedTypes il).zip (List.range' 4 (attachedTypes il).length) := by
  obtain ⟨pevs, devs, hp, hd, hkok, htr⟩ := launch_ok_decomp hok
  rw [htr, nicSlotsOf_append, nicSlotsOf_append, nicSlotsOf_append]
  rw [nicSlotsOf_nil_of_disk hp, nicSlotsOf_nil_of_disk hd,
    nicSlotsOf_singleton_launch, keyLoop_nic hkok hif]
  simp

/-- **C3** witness: a macvtap, a user and a tap interface receive slots
4 and 5, the user interface none. -/
theorem C3_witness :
    (launch_single_vm fs0 vmFull false true).2.2 = .ok () ∧
    nicSlotsOf (launch_single_vm fs0 vmFull false true).2.1 =
      [("macvtap", 4), ("tap", 5)] := by
  have h := C3_slots fs0 vmFull false true
    [⟨"macvtap", "m0"⟩, ⟨"user", "u0"⟩, ⟨"tap", "t0"⟩] (by decide) (by decide)
  exact ⟨by decide, h.trans (by decide)⟩

/-! ## C4: drive fragments last -/

/-- **C4**: in every successfully built argument vector, the drive
fragments come after every other argument, in disk order — primary at
`index=0`, each additional disk at the next index — each of the exact
form `-drive file=...,format=qcow2,if=virtio,index=k,media=disk`, and
no other argument is `-drive`. -/
theorem C4_drives_last (fs : FS) (vm : VmConfig) (ow kill : Bool)
    (hok : (launch_single_vm fs vm ow kill).2.2 = .ok ()) :
    ∃ pre d,
      launchesOf (launch_single_vm fs vm ow kill).2.1 =
        [(pre ++ driveFrags (getRemotePathD vm ::
            (getAdditional vm).map DiskSpec.remote_disk_image_path) 0, d)] ∧
      "-drive" ∉ pre := by
  obtain ⟨pevs, devs, hp, hd, hkok, htr⟩ := launch_ok_decomp hok
  refine ⟨(keyLoop fs.cwd baseArgs "" vm).1,
    (if ((keyLoop fs.cwd baseArgs "" vm).2.1 == "background" ||
         (keyLoop fs.cwd baseArgs "" vm).2.1 == "graphic") = true
     then Discipline.detachedNoOutput else Discipline.blockingPty), ?_, ?_⟩
  · rw [htr, launchesOf_append, launchesOf_append, launchesOf_append]
    rw [launchesOf_nil_of_disk hp, launchesOf_nil_of_disk hd,
      launchesOf_nil_of_iface fun e he => mem_keyLoop_evs he,
      launchesOf_singleton]
    simp
  · intro hmem
    rcases keyLoop_tokens hmem with hm | ⟨en, hen, hp2⟩
    · simp [baseArgs] at hm
    · exact entryTokP_ne_drive hp2 rfl

/-- **C4** witness: a configuration with one additional disk yields the
two drive fragments last, at indices 0 and 1. -/
theorem C4_witness :
    (launch_single_vm fs0 vmFull false true).2.2 = .ok () ∧
    ∃ pre d,
      launchesOf (launch_single_vm fs0 vmFull false true).2.1 =
        [(pre ++ driveFrags (getRemotePathD vmFull ::
            (getAdditional vmFull).map DiskSpec.remote_disk_image_path) 0, d)] ∧
      "-drive" ∉ pre :=
  ⟨by decide, C4_drives_last fs0 vmFull false true (by decide)⟩

/-! ## C5: display mode and execution discipline -/

/-- **C5**: with the single `display_mode` entry `background` or
`graphic` (or `terminal`, or no entry at all), a successful launch
submits exactly one command: `background`/`graphic` select the
detached, non-blocking, no-output discipline — with `-nographic`
(background) or the contiguous `-vga virtio` (graphic) in the argument
vector — while `terminal` or an absent key selects the blocking
interactive-pty discipline; the fragments and the discipline always
come from the same mode. -/
theorem C5_display (fs : FS) (vm : VmConfig) (ow kill : Bool) (dl : List String)
    (hdl : dmEntries vm = dl)
    (hcase : dl = [] ∨ dl = ["background"] ∨ dl = ["terminal"] ∨ dl = ["graphic"])
    (hok : (launch_single_vm fs vm ow kill).2.2 = .ok ()) :
    ∃ args2 db,
      launchesOf (launch_single_vm fs vm ow kill).2.1 = [(args2, db)] ∧
      (db = Discipline.detachedNoOutput ↔ (dl = ["background"] ∨ dl = ["graphic"])) ∧
      (dl = ["background"] → "-nographic" ∈ args2) ∧
      (dl = ["graphic"] → ∃ x y, args2 = x ++ ["-vga", "virtio"] ++ y) := by
  obtain ⟨pevs, devs, hp, hd, hkok, htr⟩ := launch_ok_decomp hok
  have hdmv : (keyLoop fs.cwd baseArgs "" vm).2.1 = dmFold "" dl := by
    rw [keyLoop_dm hkok, hdl]
  refine ⟨(keyLoop fs.cwd baseArgs "" vm).1 ++
      driveFrags (getRemotePathD vm ::
        (getAdditional vm).map DiskSpec.remote_disk_image_path) 0,
    (if ((keyLoop fs.cwd baseArgs "" vm).2.1 == "background" ||
         (keyLoop fs.cwd baseArgs "" vm).2.1 == "graphic") = true
     then Discipline.detachedNoOutput else Discipline.blockingPty), ?_, ?_, ?_, ?_⟩
  · rw [htr, launchesOf_append, launchesOf_append, launchesOf_append]
    rw [launchesOf_nil_of_disk hp, launchesOf_nil_of_disk hd,
      launchesOf_nil_of_iface fun e he => mem_keyLoop_evs he,
      launchesOf_singleton]
    simp
  · rw [hdmv]
    rcases hcase with rfl | rfl | rfl | rfl
    · simp [dmFold]
    · simp [dmFold]
    · simp [dmFold]
    · simp [dmFold]
  · intro hbg
    subst hbg
    exact List.mem_append.mpr (Or.inl (keyLoop_frag_bg hkok (by rw [hdl]; simp)))
  · intro hg
    subst hg
    obtain ⟨x, y, hxy⟩ := keyLoop_frag_graphic hkok (by rw [hdl]; simp)
    exact ⟨x, y ++ driveFrags (getRemotePathD vm ::
      (getAdditional vm).map DiskSpec.remote_disk_image_path) 0,
      by rw [hxy]; simp⟩

/-- **C5** witness: `vmFull` uses `display_mode = "background"`; its
launch is detached and carries `-nographic`. -/
theorem C5_witness :
    (launch_single_vm fs0 vmFull false true).2.2 = .ok () ∧
    ∃ args2 db,
      launchesOf (launch_single_vm fs0 vmFull false true).2.1 = [(args2, db)] ∧
      (db = Discipline.detachedNoOutput ↔
        (["background"] = ["background"] ∨ ["background"] = ["graphic"])) ∧
      (["background"] = ["background"] → "-nographic" ∈ args2) ∧
      (["background"] = ["graphic"] → ∃ x y, args2 = x ++ ["-vga", "virtio"] ++ y) :=
  ⟨by decide, C5_display fs0 vmFull false true ["background"] (by decide)
    (Or.inr (Or.inl rfl)) (by decide)⟩

/-! ## C9: absent `display_mode` versus `"terminal"` -/

/-- **C9** counterexample: the same configuration with and without
`display_mode = "terminal"` both launch successfully but with different
argument vectors — the `"terminal"` entry appends `-vga none
-nographic`, an absent key appends nothing — so the claimed equality of
the built argument vectors is false. -/
theorem C9_counterexample :
    (launch_single_vm fs0 vmNoDm false true).2.2 = .ok () ∧
    (launch_single_vm fs0 vmTermDm false true).2.2 = .ok () ∧
    launchesOf (launch_single_vm fs0 vmNoDm false true).2.1 ≠
      launchesOf (launch_single_vm fs0 vmTermDm false true).2.1 := by
  decide

/-- **C9** (amended): a configuration with no `display_mode` key
selects the same blocking interactive-pty discipline as
`display_mode = "terminal"`, but its argument vector is not the same:
it contains no `-vga` and no `-nographic` fragment (which `"terminal"`
would append). -/
theorem C9_amended (fs : FS) (vm : VmConfig) (ow kill : Bool)
    (hdm : dmEntries vm = [])
    (hok : (launch_single_vm fs vm ow kill).2.2 = .ok ()) :
    ∃ args2,
      launchesOf (launch_single_vm fs vm ow kill).2.1 =
        [(args2, Discipline.blockingPty)] ∧
      "-vga" ∉ args2 ∧ "-nographic" ∉ args2 := by
  obtain ⟨pevs, devs, hp, hd, hkok, htr⟩ := launch_ok_decomp hok
  have hdmv : (keyLoop fs.cwd baseArgs "" vm).2.1 = "" := by
    rw [keyLoop_dm hkok, hdm]
    rfl
  have hnd : ∀ en ∈ vm, ∀ v, en ≠ Entry.display_mode v := by
    intro en hen v heq
    subst heq
    have hv : v ∈ dmEntries vm := by
      unfold dmEntries
      exact List.mem_filterMap.mpr ⟨Entry.display_mode v, hen, rfl⟩
    rw [hdm] at hv
    simp at hv
  have hdisc : (if ((keyLoop fs.cwd baseArgs "" vm).2.1 == "background" ||
       (keyLoop fs.cwd baseArgs "" vm).2.1 == "graphic") = true
     then Discipline.detachedNoOutput else Discipline.blockingPty) =
      Discipline.blockingPty := by
    rw [hdmv]
    decide
  refine ⟨(keyLoop fs.cwd baseArgs "" vm).1 ++
      driveFrags (getRemotePathD vm ::
        (getAdditional vm).map DiskSpec.remote_disk_image_path) 0, ?_, ?_, ?_⟩
  · rw [htr, launchesOf_append, launchesOf_append, launchesOf_append]
    rw [launchesOf_nil_of_disk hp, launchesOf_nil_of_disk hd,
      launchesOf_nil_of_iface fun e he => mem_keyLoop_evs he,
      launchesOf_singleton, hdisc]
    simp
  · intro hmem
    rw [List.mem_append] at hmem
    rcases hmem with hmem | hmem
    · rcases keyLoop_tokens hmem with hm | ⟨en, hen, hp2⟩
      · simp [baseArgs] at hm
      · exact (entryTokP_ne_display hp2 (hnd en hen)).1 rfl
    · rcases mem_driveFrags hmem with hm | hm
      · exact absurd hm (by decide)
      · exact absurd hm (by decide)
  · intro hmem
    rw [List.mem_append] at hmem
    rcases hmem with hmem | hmem
    · rcases keyLoop_tokens hmem with hm | ⟨en, hen, hp2⟩
      · simp [baseArgs] at hm
      · exact (entryTokP_ne_display hp2 (hnd en hen)).2 rfl
    · rcases mem_driveFrags hmem with hm | hm
      · exact absurd hm (by decide)
      · exact absurd hm (by decide)

/-- **C9** (amended) witness: `vmNoDm` has no `display_mode` key; its
launch blocks on a pty and its arguments carry no display fragment. -/
theorem C9_amended_witness :
    dmEntries vmNoDm = [] ∧
    (launch_single_vm fs0 vmNoDm false true).2.2 = .ok () ∧
    ∃ args2,
      launchesOf (launch_single_vm fs0 vmNoDm false true).2.1 =
        [(args2, Discipline.blockingPty)] ∧
      "-vga" ∉ args2 ∧ "-nographic" ∉ args2 :=
  ⟨by decide, by decide, C9_amended fs0 vmNoDm false true (by decide) (by decide)⟩

/-! ## C7: empty or missing primary remote path -/

theorem transfersOf_validate (fs : FS) (p : String) (k : Bool) :
    transfersOf (validate_image_use fs p k).2.1 = [] := by
  unfold validate_image_use
  cases h1 : fs.remoteInUse p <;> cases k <;> simp [h1, transfersOf]

theorem launchesOf_validate (fs : FS) (p : String) (k : Bool) :
    launchesOf (validate_image_use fs p k).2.1 = [] := by
  unfold validate_image_use
  cases h1 : fs.remoteInUse p <;> cases k <;> simp [h1, launchesOf]

theorem transfersOf_check (fs : FS) (p : String) :
    transfersOf (check_file_exists fs p).1 = [] := rfl

theorem launchesOf_check (fs : FS) (p : String) :
    launchesOf (check_file_exists fs p).1 = [] := rfl

/-- With an empty (or missing) primary remote path, the build phase
fails and performs no transfer and no launch. -/
theorem buildAndLaunch_empty {fs1 : FS} {cwd : String} {vm : VmConfig} {ow : Bool}
    (h : getRemotePathD vm = "") :
    (∃ e, (buildAndLaunch fs1 cwd vm ow).2 = .error e) ∧
    transfersOf (buildAndLaunch fs1 cwd vm ow).1 = [] ∧
    launchesOf (buildAndLaunch fs1 cwd vm ow).1 = [] := by
  have hdp : drivesPhase fs1 vm ow (keyLoop cwd baseArgs "" vm).1
      (keyLoop cwd baseArgs "" vm).2.1 = ([], .error .emptyRemotePath) := by
    unfold drivesPhase
    rw [if_pos h]
  unfold buildAndLaunch
  simp only []
  split
  · rename_i err hk
    exact ⟨⟨err, rfl⟩,
      transfersOf_nil_of_iface fun e he => mem_keyLoop_evs he,
      launchesOf_nil_of_iface fun e he => mem_keyLoop_evs he⟩
  · rename_i hk
    rw [hdp]
    simp only []
    refine ⟨⟨.emptyRemotePath, rfl⟩, ?_, ?_⟩
    · rw [List.append_nil]
      exact transfersOf_nil_of_iface fun e he => mem_keyLoop_evs he
    · rw [List.append_nil]
      exact launchesOf_nil_of_iface fun e he => mem_keyLoop_evs he

/-- **C7** counterexample: a configuration whose
`remote_disk_image_path` is the empty string is indeed rejected, but
only after the remote existence probe on `""` and the remote creation
of its macvtap interface have been performed — not before any remote
action, as claimed. -/
theorem C7_counterexample :
    (launch_single_vm fs0 vmEmptyPath false true).2.2 = .error .emptyRemotePath ∧
    Event.probeExists "" false ∈ (launch_single_vm fs0 vmEmptyPath false true).2.1 ∧
    Event.createIface "macvtap" ∈ (launch_single_vm fs0 vmEmptyPath false true).2.1 := by
  decide

/-- **C7** (amended): a configuration whose primary remote path is
empty or missing is rejected with a fatal error before any transfer or
hypervisor launch — but the existence/in-use probes and the interface
creation may already have been performed. -/
theorem C7_amended (fs : FS) (vm : VmConfig) (ow kill : Bool)
    (h : getRemotePathD vm = "") :
    (∃ e, (launch_single_vm fs vm ow kill).2.2 = .error e) ∧
    transfersOf (launch_single_vm fs vm ow kill).2.1 = [] ∧
    launchesOf (launch_single_vm fs vm ow kill).2.1 = [] := by
  unfold launch_single_vm
  split
  · exact ⟨⟨.keyError "remote_disk_image_path", rfl⟩, rfl, rfl⟩
  · rename_i rp0 hrp0
    simp only []
    by_cases hvb : (if (check_file_exists fs rp0).2 = true
        then validate_image_use fs rp0 kill else (fs, [], true)).2.2 = false
    · rw [if_pos hvb]
      refine ⟨⟨.inUseConflict rp0, rfl⟩, ?_, ?_⟩
      · rw [transfersOf_append, transfersOf_check]
        split
        · rw [transfersOf_validate]; rfl
        · rfl
      · rw [launchesOf_append, launchesOf_check]
        split
        · rw [launchesOf_validate]; rfl
        · rfl
    · rw [if_neg hvb]
      obtain ⟨⟨e2, he2⟩, htr, hla⟩ := @buildAndLaunch_empty
        (if (check_file_exists fs rp0).2 = true
          then validate_image_use fs rp0 kill else (fs, [], true)).1
        fs.cwd vm ow h
      refine ⟨⟨e2, he2⟩, ?_, ?_⟩
      · rw [transfersOf_append, transfersOf_append, transfersOf_check, htr]
        split
        · rw [transfersOf_validate]; rfl
        · rfl
      · rw [launchesOf_append, launchesOf_append, launchesOf_check, hla]
        split
        · rw [launchesOf_validate]; rfl
        · rfl

/-- **C7** (amended) witness. -/
theorem C7_witness :
    getRemotePathD vmEmptyPath = "" ∧
    ((∃ e, (launch_single_vm fs0 vmEmptyPath false true).2.2 = .error e) ∧
     transfersOf (launch_single_vm fs0 vmEmptyPath false true).2.1 = [] ∧
     launchesOf (launch_single_vm fs0 vmEmptyPath false true).2.1 = []) :=
  ⟨by decide, C7_amended fs0 vmEmptyPath false true (by decide)⟩

/-! ## C8: unsupported interface type -/

theorem ifaceLoop_err {l : List Iface} (args : List String) (i : Nat) {f : Iface}
    (hf : f ∈ l)
    (hbad : f.itype ≠ "macvtap" ∧ f.itype ≠ "tap" ∧ f.itype ≠ "user") :
    ∃ e, (ifaceLoop args i l).2.2.2 = .error e := by
  induction l generalizing args i with
  | nil => simp at hf
  | cons g rest ih =>
    rw [ifaceLoop]
    by_cases h1 : g.itype = "macvtap"
    · simp only [if_pos h1]
      rcases List.mem_cons.mp hf with rfl | hf2
      · exact absurd h1 hbad.1
      · exact ih _ _ hf2
    · by_cases h2 : g.itype = "tap"
      · simp only [if_neg h1, if_pos h2]
        rcases List.mem_cons.mp hf with rfl | hf2
        · exact absurd h2 hbad.2.1
        · exact ih _ _ hf2
      · by_cases h3 : g.itype = "user"
        · simp only [if_neg h1, if_neg h2, if_pos h3]
          rcases List.mem_cons.mp hf with rfl | hf2
          · exact absurd h3 hbad.2.2
          · exact ih _ _ hf2
        · simp only [if_neg h1, if_neg h2, if_neg h3]
          exact ⟨.unknownInterfaceType g.itype, rfl⟩

theorem interfaces_mem_of_ifaceEntries {vm : VmConfig} {il : List Iface}
    (h : ifaceEntries vm = [il]) : Entry.interfaces il ∈ vm := by
  have hm : il ∈ ifaceEntries vm := by rw [h]; simp
  unfold ifaceEntries at hm
  rcases List.mem_filterMap.mp hm with ⟨en, hen, hm2⟩
  cases en with
  | interfaces l2 =>
    simp at hm2
    subst hm2
    exact hen
  | memory v => simp at hm2
  | cpu_count v => simp at hm2
  | virtfs_path v => simp at hm2
  | display_mode v => simp at hm2
  | remote_disk_image_path v => simp at hm2
  | local_disk_image_path v => simp at hm2
  | additional_disk_images l2 => simp at hm2
  | other k => simp at hm2

theorem keyLoop_err {cwd : String} {l : List Entry} (args : List String) (dm : String)
    {il : List Iface} {f : Iface} (hl : Entry.interfaces il ∈ l) (hf : f ∈ il)
    (hbad : f.itype ≠ "macvtap" ∧ f.itype ≠ "tap" ∧ f.itype ≠ "user") :
    ∃ e, (keyLoop cwd args dm l).2.2.2 = .error e := by
  induction l generalizing args dm with
  | nil => simp at hl
  | cons en rest ih =>
    cases en with
    | memory v =>
      rw [keyLoop]
      exact ih _ _ (by simpa using hl)
    | cpu_count v =>
      rw [keyLoop]
      exact ih _ _ (by simpa using hl)
    | virtfs_path v =>
      rw [keyLoop]
      exact ih _ _ (by simpa using hl)
    | interfaces il2 =>
      rw [keyLoop]
      simp only []
      split
      · rename_i err heq
        exact ⟨err, rfl⟩
      · rename_i heq
        rcases List.mem_cons.mp hl with hx | hx
        · obtain ⟨e, he⟩ := ifaceLoop_err args 4 hf hbad
          rw [show il2 = il by injection hx.symm] at heq
          rw [heq] at he
          simp at he
        · exact ih _ _ hx
    | display_mode v =>
      rw [keyLoop]
      by_cases h1 : v = "background"
      · rw [if_pos h1]
        exact ih _ _ (by simpa using hl)
      · by_cases h2 : v = "terminal"
        · rw [if_neg h1, if_pos h2]
          exact ih _ _ (by simpa using hl)
        · by_cases h3 : v = "graphic"
          · rw [if_neg h1, if_neg h2, if_pos h3]
            exact ih _ _ (by simpa using hl)
          · rw [if_neg h1, if_neg h2, if_neg h3]
            exact ⟨.unknownDisplayMode v, rfl⟩
    | remote_disk_image_path v =>
      rw [keyLoop]
      exact ih _ _ (by simpa using hl)
    | local_disk_image_path v =>
      rw [keyLoop]
      exact ih _ _ (by simpa using hl)
    | additional_disk_images l2 =>
      rw [keyLoop]
      exact ih _ _ (by simpa using hl)
    | other k =>
      rw [keyLoop]
      exact ih _ _ (by simpa using hl)

/-- When the key loop fails, the build phase fails with no transfer and
no launch. -/
theorem buildAndLaunch_keyErr {fs1 : FS} {cwd : String} {vm : VmConfig} {ow : Bool}
    (hke : ∃ e, (keyLoop cwd baseArgs "" vm).2.2.2 = .error e) :
    (∃ e, (buildAndLaunch fs1 cwd vm ow).2 = .error e) ∧
    transfersOf (buildAndLaunch fs1 cwd vm ow).1 = [] ∧
    launchesOf (buildAndLaunch fs1 cwd vm ow).1 = [] := by
  obtain ⟨e, he⟩ := hke
  unfold buildAndLaunch
  simp only []
  split
  · rename_i err heq
    exact ⟨⟨err, rfl⟩,
      transfersOf_nil_of_iface fun x hx => mem_keyLoop_evs hx,
      launchesOf_nil_of_iface fun x hx => mem_keyLoop_evs hx⟩
  · rename_i heq
    rw [heq] at he
    simp at he

/-- **C8** counterexample: for a VM whose `interfaces` contain the
unsupported type `wifi`, the fatal error is raised only after the
orchestrator has opened the VM's remote session and the primary disk's
existence probe has run over it — not before any remote session is
opened. -/
theorem C8_counterexample :
    (run_vms_on_single_host fs0 [vmWifi] none false true).2.2 =
      .error (.unknownInterfaceType "wifi") ∧
    Event.openSession ∈ (run_vms_on_single_host fs0 [vmWifi] none false true).2.1 ∧
    Event.probeExists "img" false ∈
      (run_vms_on_single_host fs0 [vmWifi] none false true).2.1 := by
  decide

/-- **C8** (amended): an `interfaces[].type` outside
macvtap/tap/user makes the VM's launch fail with a fatal error before
any transfer or hypervisor launch, and aborts the whole host's
provisioning — but the VM's remote session is opened (and the primary
disk probed) before the configuration error is detected. -/
theorem C8_amended (fs : FS) (vm : VmConfig) (ow kill : Bool) (il : List Iface) (f : Iface)
    (hif : ifaceEntries vm = [il]) (hf : f ∈ il)
    (hbad : f.itype ≠ "macvtap" ∧ f.itype ≠ "tap" ∧ f.itype ≠ "user") :
    (∃ e, (launch_single_vm fs vm ow kill).2.2 = .error e) ∧
    transfersOf (launch_single_vm fs vm ow kill).2.1 = [] ∧
    launchesOf (launch_single_vm fs vm ow kill).2.1 = [] ∧
    ∀ rest : List VmConfig,
      ∃ e2, (run_vms_on_single_host fs (vm :: rest) none ow kill).2.2 = .error e2 := by
  have hke : ∀ cwd : String, ∃ e, (keyLoop cwd baseArgs "" vm).2.2.2 = .error e :=
    fun cwd => keyLoop_err baseArgs "" (interfaces_mem_of_ifaceEntries hif) hf hbad
  have hmain : (∃ e, (launch_single_vm fs vm ow kill).2.2 = .error e) ∧
      transfersOf (launch_single_vm fs vm ow kill).2.1 = [] ∧
      launchesOf (launch_single_vm fs vm ow kill).2.1 = [] := by
    unfold launch_single_vm
    split
    · exact ⟨⟨.keyError "remote_disk_image_path", rfl⟩, rfl, rfl⟩
    · rename_i rp0 hrp0
      simp only []
      by_cases hvb : (if (check_file_exists fs rp0).2 = true
          then validate_image_use fs rp0 kill else (fs, [], true)).2.2 = false
      · rw [if_pos hvb]
        refine ⟨⟨.inUseConflict rp0, rfl⟩, ?_, ?_⟩
        · rw [transfersOf_append, transfersOf_check]
          split
          · rw [transfersOf_validate]; rfl
          · rfl
        · rw [launchesOf_append, launchesOf_check]
          split
          · rw [launchesOf_validate]; rfl
          · rfl
      · rw [if_neg hvb]
        obtain ⟨⟨e2, he2⟩, htr, hla⟩ := @buildAndLaunch_keyErr
          (if (check_file_exists fs rp0).2 = true
            then validate_image_use fs rp0 kill else (fs, [], true)).1
          fs.cwd vm ow (hke fs.cwd)
        refine ⟨⟨e2, he2⟩, ?_, ?_⟩
        · rw [transfersOf_append, transfersOf_append, transfersOf_check, htr]
          split
          · rw [transfersOf_validate]; rfl
          · rfl
        · rw [launchesOf_append, launchesOf_append, launchesOf_check, hla]
          split
          · rw [launchesOf_validate]; rfl
          · rfl
  refine ⟨hmain.1, hmain.2.1, hmain.2.2, ?_⟩
  intro rest
  obtain ⟨e, he⟩ := hmain.1
  refine ⟨e, ?_⟩
  unfold run_vms_on_single_host vmsLoop
  simp only []
  split
  · rename_i err heq
    rw [← heq]
    exact he
  · rename_i heq
    rw [heq] at he
    simp at he

/-- **C8** (amended) witness. -/
theorem C8_witness :
    ifaceEntries vmWifi = [[⟨"wifi", "w0"⟩]] ∧
    ((∃ e, (launch_single_vm fs0 vmWifi false true).2.2 = .error e) ∧
     transfersOf (launch_single_vm fs0 vmWifi false true).2.1 = [] ∧
     launchesOf (launch_single_vm fs0 vmWifi false true).2.1 = [] ∧
     ∀ rest : List VmConfig,
       ∃ e2, (run_vms_on_single_host fs0 (vmWifi :: rest) none false true).2.2 = .error e2) :=
  ⟨by decide, C8_amended fs0 vmWifi false true [⟨"wifi", "w0"⟩] ⟨"wifi", "w0"⟩
    (by decide) (by decide) ⟨by decide, by decide, by decide⟩⟩

/-! ## C6: error propagation across VM tasks -/

/-- **C6** counterexample: a fatal configuration error in the first VM
of a host makes the whole host run fail with that error, and the
sibling VM — which alone would have launched — is never launched: no
launch event appears at all, and no aggregate of per-VM outcomes is
produced. -/
theorem C6_counterexample :
    (run_vms_on_single_host fs0 [vmBadDm, vmGood] none false true).2.2 =
      .error (.unknownDisplayMode "wayland") ∧
    launchesOf (run_vms_on_single_host fs0 [vmBadDm, vmGood] none false true).2.1 = [] ∧
    (run_vms_on_single_host fs0 [vmGood] none false true).2.2 = .ok () := by
  decide

/-- **C6** (amended): a fatal error while provisioning or launching one
VM terminates the entire run — `sys.exit(1)` raised inside the task
propagates through the gather — so the remaining sibling VMs of the
host and all remaining hosts contribute nothing, and the run ends with
that error instead of an aggregate report produced after all work has
settled. -/
theorem C6_amended (fs : FS) (cli : CliArgs) (vm : VmConfig) (rest : List VmConfig)
    (hosts2 : List HostConfig) (h : Option String) (fs2 : FS) (tr : List Event) (e : Err)
    (hfail : launch_single_vm fs vm cli.overwrite_image true = (fs2, tr, .error e)) :
    main fs cli ({ host := h, host_network := none, vms := vm :: rest } :: hosts2) =
      (fs2, [Event.openSession, Event.vmTask true] ++ tr, .error e) := by
  unfold main hostsLoop run_vms_on_single_host vmsLoop
  rw [hfail]

/-- **C6** (amended) witness: with a bad first VM, a good sibling and
no further hosts, `main` stops at the first VM's error. -/
theorem C6_amended_witness :
    main fs0 cli0 [{ host := none, host_network := none, vms := [vmBadDm, vmGood] }] =
      (fs0, [Event.openSession, Event.vmTask true] ++ [Event.probeExists "img" false],
       .error (.unknownDisplayMode "wayland")) :=
  C6_amended fs0 cli0 vmBadDm [vmGood] [] none fs0 [Event.probeExists "img" false]
    (.unknownDisplayMode "wayland") rfl

/-! ## C10: the CLI always kills running owners -/

theorem vmTask_not_launch {fs : FS} {vm : VmConfig} {ow kill k : Bool} :
    Event.vmTask k ∉ (launch_single_vm fs vm ow kill).2.1 := by
  intro h
  rcases mem_launch_evs h with hd | hi | ⟨a, d, heq⟩
  · simp [diskEv] at hd
  · simp [ifaceEv] at hi
  · exact absurd heq (by simp)

theorem vmTask_setup {hn : List HostIface} {k : Bool} :
    Event.vmTask k ∉ (setup_host_network hn).1 := by
  induction hn with
  | nil => simp [setup_host_network]
  | cons f rest ih =>
    rw [setup_host_network]
    by_cases h1 : f.htype = "bridge"
    · simp only [if_pos h1]
      intro h
      simp at h
      exact ih h
    · by_cases h2 : f.htype = "macvlan"
      · simp only [if_neg h1, if_pos h2]
        intro h
        simp at h
        exact ih h
      · simp only [if_neg h1, if_neg h2]
        simp

theorem vmTask_vmsLoop {fs : FS} {ow kill : Bool} {vms : List VmConfig} {k : Bool}
    (h : Event.vmTask k ∈ (vmsLoop fs ow kill vms).2.1) : k = kill := by
  induction vms generalizing fs with
  | nil => simp [vmsLoop] at h
  | cons vm rest ih =>
    rw [vmsLoop] at h
    simp only [] at h
    split at h
    · simp at h
      rcases h with h | h
      · exact h
      · exact absurd h vmTask_not_launch
    · simp at h
      rcases h with h | h | h
      · exact h
      · exact absurd h vmTask_not_launch
      · exact ih h

theorem vmTask_run {fs : FS} {vms : List VmConfig} {hn : Option (List HostIface)}
    {ow kill : Bool} {k : Bool}
    (h : Event.vmTask k ∈ (run_vms_on_single_host fs vms hn ow kill).2.1) : k = kill := by
  unfold run_vms_on_single_host at h
  cases hn with
  | none => exact vmTask_vmsLoop h
  | some hnl =>
    simp only [] at h
    split at h
    · simp at h
      exact absurd h vmTask_setup
    · simp at h
      rcases h with h | h
      · exact absurd h vmTask_setup
      · exact vmTask_vmsLoop h

theorem vmTask_hostsLoop {fs : FS} {ow : Bool} {hs : List HostConfig} {k : Bool}
    (h : Event.vmTask k ∈ (hostsLoop fs ow hs).2.1) : k = true := by
  induction hs generalizing fs with
  | nil => simp [hostsLoop] at h
  | cons hc rest ih =>
    rw [hostsLoop] at h
    simp only [] at h
    split at h
    · exact vmTask_run h
    · simp at h
      rcases h with h | h
      · exact vmTask_run h
      · exact ih h

/-- The launch of a minimal configuration whose primary disk exists and
is in use, with the kill option, under `overwrite = false`: the owner
is killed and the launch proceeds. -/
theorem launch_kill_spec {fs : FS} {rp : String} (hrp : rp ≠ "")
    (he : fs.remoteExists rp = true) (hu : fs.remoteInUse rp = true) :
    launch_single_vm fs [Entry.remote_disk_image_path rp] false true =
      (fs.killAt rp,
       [Event.probeExists rp true, Event.probeInUse rp, Event.killQemu rp,
        Event.probeExists rp true, Event.probeInUse rp,
        Event.launch (baseArgs ++ driveFrag rp 0) Discipline.blockingPty],
       .ok ()) := by
  unfold launch_single_vm buildAndLaunch drivesPhase ensure_file_image addDisksLoop
    check_file_exists validate_image_use copy_to_remote
  simp [hrp, he, hu, keyLoop, getRemotePathD, getRemotePath?, getLocalPathD,
    getAdditional, baseArgs, FS.killAt, List.findSome?]

/-- **C10**: `main` passes `kill_running_vms = True` to every VM launch
(every `vmTask` event carries `kill = true`), whatever the CLI
arguments are — the CLI surface cannot disable it — and for a primary
disk that is in use, the owning process is killed and the launch then
proceeds. -/
theorem C10_cli_kills (fs : FS) (cli : CliArgs) (rp : String)
    (hrp : rp ≠ "") (he : fs.remoteExists rp = true) (hu : fs.remoteInUse rp = true)
    (how : cli.overwrite_image = false) :
    (∀ (cfg : List HostConfig) (k : Bool),
      Event.vmTask k ∈ (main fs cli cfg).2.1 → k = true) ∧
    (Event.killQemu rp ∈ (main fs cli
        [{ host := none, host_network := none,
           vms := [[Entry.remote_disk_image_path rp]] }]).2.1 ∧
     (main fs cli
        [{ host := none, host_network := none,
           vms := [[Entry.remote_disk_image_path rp]] }]).2.2 = .ok () ∧
     launchesOf (main fs cli
        [{ host := none, host_network := none,
           vms := [[Entry.remote_disk_image_path rp]] }]).2.1 =
       [(baseArgs ++ driveFrag rp 0, Discipline.blockingPty)]) := by
  constructor
  · intro cfg k hk
    exact vmTask_hostsLoop hk
  · have hL := launch_kill_spec hrp he hu
    rw [← how] at hL
    unfold main hostsLoop run_vms_on_single_host vmsLoop
    rw [hL]
    simp only [hostsLoop, vmsLoop]
    exact ⟨by simp, by simp, by simp [launchesOf]⟩

/-- **C10** witness: for the in-use image `img` of `fsU`, the run kills
the owner and launches. -/
theorem C10_witness :
    ((∀ (cfg : List HostConfig) (k : Bool),
      Event.vmTask k ∈ (main fsU cli0 cfg).2.1 → k = true) ∧
    (Event.killQemu "img" ∈ (main fsU cli0
        [{ host := none, host_network := none,
           vms := [[Entry.remote_disk_image_path "img"]] }]).2.1 ∧
     (main fsU cli0
        [{ host := none, host_network := none,
           vms := [[Entry.remote_disk_image_path "img"]] }]).2.2 = .ok () ∧
     launchesOf (main fsU cli0
        [{ host := none, host_network := none,
           vms := [[Entry.remote_disk_image_path "img"]] }]).2.1 =
       [(baseArgs ++ driveFrag "img" 0, Discipline.blockingPty)])) :=
  C10_cli_kills fsU cli0 "img" (by decide) (by decide) (by decide) (by decide)

end VmLaunch
